import Mathlib

/-!
Verification of the synchronization engine in `src/sync.rs` of cargo-fetcher.

The filesystem is modelled as a finite set of files (path plus byte content);
directories are implicit (a directory exists when some file lies under it).
External collaborators (the storage backend, the content digest, tar
extraction, git operations) and the fallible I/O primitives are collected in
an `Env` record, so that each translated function is a pure state transformer
`FS → Except String Unit × FS` (or similar) over this environment.
-/

namespace CargoFetcher

/-- A filesystem path, as its list of components. -/
abbrev FsPath := List String

/-- Raw byte content. -/
abbrev Bytes := List Nat

/-- The entries of an extracted archive: relative path and content of each
file the archive contains. -/
abbrev Tree := List (FsPath × Bytes)

deriving instance DecidableEq for Except

/-- A filesystem: the finite set of files currently on disk, each with its
content.  Directories are implicit. -/
structure FS where
  files : List (FsPath × Bytes)
deriving DecidableEq, Repr

namespace FS

/-- A file exists at exactly this path. -/
def fileExists (fs : FS) (p : FsPath) : Bool :=
  fs.files.any (fun e => e.1 == p)

/-- `Path::exists`: something (a file, or a directory containing a file)
exists at this path. -/
def pathExists (fs : FS) (p : FsPath) : Bool :=
  fs.files.any (fun e => p.isPrefixOf e.1)

/-- Write a file, replacing any previous file at the same path. -/
def writeFile (fs : FS) (p : FsPath) (d : Bytes) : FS :=
  ⟨(p, d) :: fs.files.filter (fun e => !(e.1 == p))⟩

/-- `remove_dir_all`: remove everything at or below the path. -/
def removeDirAll (fs : FS) (p : FsPath) : FS :=
  ⟨fs.files.filter (fun e => !(p.isPrefixOf e.1))⟩

/-- Extract an archive: write every entry of the tree below the path. -/
def unpack (fs : FS) (p : FsPath) (t : Tree) : FS :=
  t.foldl (fun acc e => acc.writeFile (p ++ e.1) e.2) fs

/-- `read_dir`: the names of the entries directly below the path. -/
def readDirNames (fs : FS) (p : FsPath) : List String :=
  (fs.files.filterMap (fun e =>
    if p.isPrefixOf e.1 then (e.1.drop p.length).head? else none)).dedup

end FS

/-- A registry: its index URL and its derived short name (the short name is
computed outside `sync.rs`; it is carried here as a field). -/
structure Registry where
  index : String
  shortName : String
deriving DecidableEq, Repr

/-- The two source variants of a package. -/
inductive Source where
  | registry (registry : Registry) (chksum : String)
  | git (url : String) (ident : String) (rev : String)
deriving DecidableEq, Repr

/-- A package: the unit of synchronization. -/
structure Krate where
  name : String
  version : String
  source : Source
deriving DecidableEq, Repr

/-- Modelled from the spec: `Krate::local_id` is declared outside
`src/sync.rs`.  Per §3/§6 of the spec, the local identifier is the
filesystem-safe cache key: for a registry package the cache file name
`<name>-<version>.crate` (§6: the cache entry "file name includes the
archive's native extension"), and for a git package the repository identity
derived from the URL (§6: `git/db/<repo-identity>/` and
`git/checkouts/<repo-identity>/<revision>/`). -/
def Krate.local_id (k : Krate) : String :=
  match k.source with
  | .registry _ _ => k.name ++ "-" ++ k.version ++ ".crate"
  | .git _ ident _ => ident

/-- Modelled from the spec: `PartialEq<Registry> for Krate` is declared
outside `src/sync.rs`; per §3 a package "belongs to" a registry if its
source is that registry source. -/
def Krate.inRegistry (k : Krate) (r : Registry) : Bool :=
  match k.source with
  | .registry reg _ => reg == r
  | .git _ _ _ => false

/-- The external collaborators and fallible primitives of the sync engine.
Success and failure of each external operation is a fixed function of its
arguments, so a whole run is a pure function of the environment. -/
structure Env where
  /-- `Storage::fetch`: the bytes served for a package identity, or `none`
  when the fetch fails. -/
  fetch : Krate → Option Bytes
  /-- The content digest used by `util::validate_checksum`. -/
  digest : Bytes → String
  /-- `util::unpack_tar`: the entries extracted from an archive, or `none`
  when decompression or extraction fails. -/
  untar : Bytes → Option Tree
  /-- `crate::git::checkout db_path co_path rev`: the working-tree files it
  produces below the checkout path, or `none` on failure. -/
  gitCheckout : FsPath → FsPath → String → Option Tree
  /-- Whether the incremental `git fetch` of a registry index succeeds. -/
  indexFetch : Registry → Bool
  /-- Whether `git2::Repository::open` succeeds at a path. -/
  repoOpen : FsPath → FS → Bool
  /-- Whether `std::fs::File::create` (and the subsequent write) fails. -/
  createFails : FsPath → Bool
  /-- Whether `remove_dir_all` fails. -/
  removeFails : FsPath → Bool
  /-- Whether `std::fs::read_dir` fails. -/
  readDirFails : FsPath → Bool

/-- ASCII lowering of a character code, for the case-insensitive hex
comparison. -/
def lowerByte (n : Nat) : Nat :=
  if 65 ≤ n ∧ n ≤ 90 then n + 32 else n

/-- Case-insensitive ASCII string comparison. -/
def eqIgnoreAsciiCase (a b : String) : Bool :=
  a.data.map (fun c => lowerByte c.toNat) == b.data.map (fun c => lowerByte c.toNat)

/-- `util::validate_checksum`: modelled from the spec (§6): the hex digest of
the raw bytes is compared case-insensitively with the expected value. -/
def validate_checksum (env : Env) (data : Bytes) (chksum : String) : Bool :=
  eqIgnoreAsciiCase (env.digest data) chksum

/-- The dot character separating a file name's stem from its extension. -/
def ChrDot : Char := '.'

/-- `PathBuf::set_extension("")`: drop the final `.ext` of a file name (the
last dot and everything after it); a name without a dot is unchanged. -/
def stripExtension (s : String) : String :=
  match s.data.reverse.dropWhile (fun c => c != ChrDot) with
  | [] => s
  | _ :: stem => ⟨stem.reverse⟩

/-- The contents `util::write_ok` gives the non-git `.cargo-ok` marker. -/
def write_ok_contents : Bytes := [111, 107]

def INDEX_DIR : FsPath := ["registry", "index"]
def CACHE_DIR : FsPath := ["registry", "cache"]
def SRC_DIR : FsPath := ["registry", "src"]
def GIT_DB_DIR : FsPath := ["git", "db"]
def GIT_CO_DIR : FsPath := ["git", "checkouts"]

/-- Modelled from the spec: `Registry::sync_dirs` is declared outside
`src/sync.rs`; per §6 the registry owns
`registry/cache/<registry-identity>/` and `registry/src/<registry-identity>/`
below the root. -/
def Registry.sync_dirs (r : Registry) (root : FsPath) : FsPath × FsPath :=
  (root ++ CACHE_DIR ++ [r.shortName], root ++ SRC_DIR ++ [r.shortName])

/-! ## `sync_package` (src/sync.rs lines 186-266)

The two sub-operations (cache write, source expansion) run concurrently on
disjoint directories in the source; they are sequenced here, cache write
first.  Each `spawn_blocking` failure is logged by the source and does not
propagate; the function returns `Ok` whenever the checksum validates. -/

/-- The `pack_write` task (lines 202-217): write the raw tarball to the
cache directory; a failure is logged only. -/
def pack_write (env : Env) (packed_krate_path : FsPath) (pack_data : Bytes)
    (fs : FS) : FS :=
  if env.createFails packed_krate_path then fs
  else fs.writeFile packed_krate_path pack_data

/-- The `unpack` task (lines 221-251): expand the source tree unless its
`.cargo-ok` marker already exists; remove a stale partial directory first;
crate tarballs contain their top-level directory, so extraction targets the
parent (`src_dir`); a marker-write failure is logged only. -/
def unpack_task (env : Env) (src_dir : FsPath) (lid : String) (data : Bytes)
    (fs : FS) : FS :=
  if fs.pathExists (src_dir ++ [stripExtension lid] ++ [".cargo-ok"]) then fs
  else
    match (if fs.pathExists (src_dir ++ [stripExtension lid]) then
             (if env.removeFails (src_dir ++ [stripExtension lid]) then none
              else some (fs.removeDirAll (src_dir ++ [stripExtension lid])))
           else some fs) with
    | none => fs
    | some fsa =>
      match env.untar data with
      | none => fsa
      | some t =>
        let fsb := fsa.unpack src_dir t
        if env.createFails (src_dir ++ [stripExtension lid] ++ [".cargo-ok"]) then fsb
        else fsb.writeFile (src_dir ++ [stripExtension lid] ++ [".cargo-ok"])
          write_ok_contents

def sync_package (env : Env) (cache_dir src_dir : FsPath) (krate : Krate)
    (data : Bytes) (chksum : String) (fs : FS) : Except String Unit × FS :=
  if !(validate_checksum env data chksum) then
    (.error "checksum mismatch", fs)
  else
    -- the two tasks are spawned, then joined; failures are logged only
    let fs1 := pack_write env (cache_dir ++ [krate.local_id]) data fs
    (.ok (), unpack_task env src_dir krate.local_id data fs1)

/-! ## `sync_git` (src/sync.rs lines 126-182) -/

/-- `crate::git::GitSource`: the bare-repo archive and the optional pre-built
checkout archive (fields destructured in `sync_git`). -/
structure GitSource where
  db : Bytes
  checkout : Option Bytes
deriving DecidableEq, Repr

/-- The removal pattern of `sync_git`: remove the directory when it exists,
propagating a removal failure as `none`. -/
def remove_if_exists (env : Env) (p : FsPath) (fs : FS) : Option FS :=
  if fs.pathExists p then
    (if env.removeFails p then none else some (fs.removeDirAll p))
  else some fs

/-- The checkout step of `sync_git` (lines 160-175): use the pre-built
checkout tarball when present (it includes submodules), otherwise check out
from the just-restored bare clone. -/
def checkout_step (env : Env) (db_path co_path : FsPath) (co : Option Bytes)
    (rev : String) (fs : FS) : Option FS :=
  match co with
  | some codata => (env.untar codata).map (fun tco => fs.unpack co_path tco)
  | none => (env.gitCheckout db_path co_path rev).map
      (fun tco => fs.unpack co_path tco)

def sync_git (env : Env) (db_dir co_dir : FsPath) (krate : Krate)
    (src : GitSource) (rev : String) (fs : FS) : Except String Unit × FS :=
  -- always blow away the existing DB dir and re-sync from the remote tar
  match remove_if_exists env (db_dir ++ [krate.local_id]) fs with
  | none => (.error "failed to remove existing DB path", fs)
  | some fs1 =>
    match env.untar src.db with
    | none => (.error "failed to unpack db tar", fs1)
    | some tdb =>
      let fs2 := fs1.unpack (db_dir ++ [krate.local_id]) tdb
      -- no .cargo-ok: any existing checkout content is untrusted, remove it
      match remove_if_exists env (co_dir ++ [krate.local_id, rev]) fs2 with
      | none => (.error "unable to remove checkout dir", fs2)
      | some fs3 =>
        match checkout_step env (db_dir ++ [krate.local_id])
            (co_dir ++ [krate.local_id, rev]) src.checkout rev fs3 with
        | none => (.error "checkout failed", fs3)
        | some fs4 =>
          -- the git .cargo-ok is created empty
          if env.createFails (co_dir ++ [krate.local_id, rev] ++ [".cargo-ok"]) then
            (.error "failed to create .cargo-ok", fs4)
          else
            (.ok (), fs4.writeFile (co_dir ++ [krate.local_id, rev] ++ [".cargo-ok"]) [])

/-! ## `registry_index` / `registry_indices` (src/sync.rs lines 14-124) -/

/-- The synthetic package standing for "the index itself" (lines 102-110). -/
def index_krate (registry : Registry) : Krate :=
  { name := registry.shortName
    version := "1.0.0"
    source := .git registry.index registry.shortName "feedc0de" }

/-- The NoLocalIndex path of `registry_index` (lines 102-123): fetch the
index snapshot and extract it.  The extraction result is only inspected for a
join error in the source; an extraction failure is logged and then dropped,
so this path returns `Ok` whenever the fetch succeeded. -/
def registry_index_full (env : Env) (root_dir : FsPath) (registry : Registry)
    (fs : FS) : Except String Unit × FS :=
  let index_path := root_dir ++ INDEX_DIR ++ [registry.shortName]
  match env.fetch (index_krate registry) with
  | none => (.error "failed to fetch index", fs)
  | some index_data =>
    match env.untar index_data with
    | none => (.ok (), fs)
    | some t => (.ok (), fs.unpack index_path t)

def registry_index (env : Env) (root_dir : FsPath) (registry : Registry)
    (fs : FS) : Except String Unit × FS :=
  let index_path := root_dir ++ INDEX_DIR ++ [registry.shortName]
  -- create_dir_all: directories are implicit in the file-set model
  if env.repoOpen index_path fs then
    -- the index already exists: try an incremental git fetch instead
    if env.indexFetch registry then
      -- write .last-updated so cargo knows when the index was updated
      (if env.createFails (index_path ++ [".last-updated"]) then
         (.error "failed to crate .last-updated", fs)
       else (.ok (), fs.writeFile (index_path ++ [".last-updated"]) []))
    else
      -- failed to pull: remove the index and update manually
      (if env.removeFails index_path then (.error "failed to remove index dir", fs)
       else registry_index_full env root_dir registry (fs.removeDirAll index_path))
  else registry_index_full env root_dir registry fs

/-- `registry_indices` (lines 14-45): every registry is processed (the
`buffer_unordered` stream is folded to completion, sequenced here; each
registry works below its own index path); per-registry errors are logged in
the fold and the function itself returns `Ok`.  The per-registry results are
returned alongside the final filesystem. -/
def registry_indices (env : Env) (root_dir : FsPath) (registries : List Registry)
    (fs : FS) : Except String Unit × FS × List (Except String Unit) :=
  let step := registries.foldl (fun acc r =>
      let o := registry_index env root_dir r acc.1
      (o.2, acc.2 ++ [o.1])) (fs, ([] : List (Except String Unit)))
  (.ok (), step.1, step.2)

/-! ## The local-state probers (src/sync.rs lines 268-317) -/

def get_missing_git_sources (krates : List Krate) (git_co_dir : FsPath)
    (fs : FS) : List Krate :=
  krates.filter (fun k =>
    match k.source with
    | .git _ ident rev =>
      !(fs.pathExists (git_co_dir ++ [ident, rev, ".cargo-ok"]))
    | .registry _ _ => false)

/-- The cache directory is listed once; the names are sorted and each
candidate is probed by `binary_search`, i.e. a membership test on the set of
entry names. -/
def get_missing_registry_sources (env : Env) (krates : List Krate)
    (registry : Registry) (cache_dir : FsPath) (fs : FS) :
    Except String (List Krate) :=
  if env.readDirFails cache_dir then .error "failed to read cache dir"
  else
    let cached_crates := fs.readDirNames cache_dir
    .ok (krates.filter (fun k =>
      k.inRegistry registry && !(cached_crates.contains k.local_id)))

/-! ## Deduplication of the missing set (src/sync.rs lines 348-350)

`to_sync.sort(); to_sync.dedup();` uses the ordering and equality of `Krate`,
declared outside `src/sync.rs`.  Modelled from the spec (§3): two packages
with the same local identifier are the same sync unit, and the orchestrator
deduplicates on this identifier; so sorting is by local identifier and
`dedup` drops an element whose identifier equals the last kept one. -/

/-- Lexicographic at-most comparison of character lists by code point. -/
def lebChars : List Char → List Char → Bool
  | [], _ => true
  | _ :: _, [] => false
  | a :: as, b :: bs =>
    if a.toNat < b.toNat then true
    else if b.toNat < a.toNat then false
    else lebChars as bs

/-- Lexicographic string comparison: the sort order used on local
identifiers. -/
def strLe (a b : String) : Prop := lebChars a.data b.data = true

def krateLE (a b : Krate) : Prop := strLe a.local_id b.local_id

instance : DecidableRel krateLE := fun a b =>
  inferInstanceAs (Decidable (lebChars a.local_id.data b.local_id.data = true))

instance : IsTotal Krate krateLE := by
  refine ⟨fun a b => ?_⟩
  show lebChars a.local_id.data b.local_id.data = true ∨
    lebChars b.local_id.data a.local_id.data = true
  generalize a.local_id.data = xs
  generalize b.local_id.data = ys
  induction xs generalizing ys with
  | nil => exact Or.inl rfl
  | cons x xs ih =>
    cases ys with
    | nil => exact Or.inr rfl
    | cons y ys =>
      by_cases h1 : x.toNat < y.toNat
      · exact Or.inl (by simp [lebChars, h1])
      · by_cases h2 : y.toNat < x.toNat
        · exact Or.inr (by simp [lebChars, h2])
        · rcases ih ys with h | h
          · exact Or.inl (by simp [lebChars, h1, h2, h])
          · exact Or.inr (by simp [lebChars, h1, h2, h])

instance : IsTrans Krate krateLE := by
  refine ⟨fun a b c hab hbc => ?_⟩
  have key : ∀ xs ys zs : List Char, lebChars xs ys = true →
      lebChars ys zs = true → lebChars xs zs = true := by
    intro xs
    induction xs with
    | nil =>
      intro ys zs _ _
      rfl
    | cons x xs ih =>
      intro ys zs h1 h2
      cases ys with
      | nil => simp [lebChars] at h1
      | cons y ys =>
        cases zs with
        | nil => simp [lebChars] at h2
        | cons z zs =>
          simp only [lebChars] at h1 h2 ⊢
          have hxy : x.toNat ≤ y.toNat := by
            by_contra hc
            push_neg at hc
            rw [if_neg (by omega), if_pos hc] at h1
            cases h1
          have hyz : y.toNat ≤ z.toNat := by
            by_contra hc
            push_neg at hc
            rw [if_neg (by omega), if_pos hc] at h2
            cases h2
          by_cases hxz : x.toNat < z.toNat
          · rw [if_pos hxz]
          · rw [if_neg hxz, if_neg (by omega)]
            rw [if_neg (by omega), if_neg (by omega)] at h1
            rw [if_neg (by omega), if_neg (by omega)] at h2
            exact ih ys zs h1 h2
  exact key _ _ _ hab hbc

/-- `Vec::dedup` after the head: drop elements equal (by local identifier) to
the last kept element. -/
def dedupLoop (prev : Krate) : List Krate → List Krate
  | [] => []
  | k :: rest =>
    if prev.local_id == k.local_id then dedupLoop prev rest
    else k :: dedupLoop k rest

def dedupAdjacent : List Krate → List Krate
  | [] => []
  | k :: rest => k :: dedupLoop k rest

def sortDedupKrates (l : List Krate) : List Krate :=
  dedupAdjacent (List.insertionSort krateLE l)

/-! ## `crates` (src/sync.rs lines 319-458) -/

/-- The aggregate counters returned by a full sync run. -/
structure Summary where
  total_bytes : Nat
  bad : Nat
  good : Nat
deriving DecidableEq, Repr

/-- The fields of `crate::Ctx` that `crates` reads. -/
structure Ctx where
  root_dir : FsPath
  krates : List Krate
  registries : List Registry
deriving Repr

/-- The best-effort checkout companion identity: the same package with
`-checkout` appended to its revision (lines 396-408). -/
def checkout_id (k : Krate) : Krate :=
  { k with source :=
      match k.source with
      | .git url ident rev => .git url ident (rev ++ "-checkout")
      | s => s }

/-- The outcome of one dispatched missing package: the per-package result
(`Ok` carries the byte length of the primary fetch), the filesystem after
it, and the logs of backend fetches and materializer invocations it caused. -/
structure StepOut where
  res : Except String Nat
  fs : FS
  fetched : List Krate
  coFetched : List Krate
  materialized : List Krate
deriving Repr

/-- One iteration of the fetch-and-materialize stream (lines 363-431). -/
def syncOne (env : Env) (root : FsPath) (k : Krate) (fs : FS) : StepOut :=
  match env.fetch k with
  | none => ⟨.error "failed to download", fs, [k], [], []⟩
  | some krate_data =>
    match k.source with
    | .registry reg chksum =>
      let dirs := reg.sync_dirs root
      let o := sync_package env dirs.1 dirs.2 k krate_data chksum fs
      match o.1 with
      | .error e => ⟨.error e, o.2, [k], [], [k]⟩
      | .ok _ => ⟨.ok krate_data.length, o.2, [k], [], [k]⟩
    | .git _ _ rev =>
      -- best-effort fetch of the pre-built checkout companion (`.ok()`)
      let checkout := env.fetch (checkout_id k)
      let o := sync_git env (root ++ GIT_DB_DIR) (root ++ GIT_CO_DIR) k
        ⟨krate_data, checkout⟩ rev fs
      match o.1 with
      | .error e => ⟨.error e, o.2, [k], [checkout_id k], [k]⟩
      | .ok _ => ⟨.ok krate_data.length, o.2, [k], [checkout_id k], [k]⟩

/-- The result of draining the whole stream of missing packages. -/
structure RunOut where
  fs : FS
  outcomes : List (Krate × Except String Nat)
  fetched : List Krate
  coFetched : List Krate
  materialized : List Krate
deriving Repr

/-- Drain the stream: every dispatched package is driven to completion and
contributes one outcome (`buffer_unordered` is sequenced here; every package
works on paths keyed by its own local identifier). -/
def runSync (env : Env) (root : FsPath) : List Krate → FS → RunOut
  | [], fs => ⟨fs, [], [], [], []⟩
  | k :: rest, fs =>
    let s := syncOne env root k fs
    let r := runSync env root rest s.fs
    ⟨r.fs, (k, s.res) :: r.outcomes, s.fetched ++ r.fetched,
      s.coFetched ++ r.coFetched, s.materialized ++ r.materialized⟩

/-- The stream fold of lines 434-455: a success adds one to `good` and the
fetched byte length to `total_bytes`; a failure adds one to `bad`. -/
def foldSummary : List (Krate × Except String Nat) → Summary → Summary
  | [], acc => acc
  | (_, .ok len) :: rest, acc =>
    foldSummary rest
      { acc with good := acc.good + 1, total_bytes := acc.total_bytes + len }
  | (_, .error _) :: rest, acc =>
    foldSummary rest { acc with bad := acc.bad + 1 }

/-- The probing phase of `crates` (lines 336-346): git sources first, then
each configured registry in order; a registry whose cache directory cannot be
read aborts the phase with its error. -/
def missingRegistryLoop (env : Env) (ctx : Ctx) (fs : FS) :
    List Registry → Except String (List Krate)
  | [] => .ok []
  | r :: rest =>
    match get_missing_registry_sources env ctx.krates r
        (r.sync_dirs ctx.root_dir).1 fs with
    | .error e => .error e
    | .ok l =>
      match missingRegistryLoop env ctx fs rest with
      | .error e => .error e
      | .ok l2 => .ok (l ++ l2)

def missingKrates (env : Env) (ctx : Ctx) (fs : FS) :
    Except String (List Krate) :=
  match missingRegistryLoop env ctx fs ctx.registries with
  | .error e => .error e
  | .ok lr =>
    .ok (get_missing_git_sources ctx.krates (ctx.root_dir ++ GIT_CO_DIR) fs ++ lr)

/-- `crates`: probe, deduplicate, early-return a zero `Summary` when nothing
is missing, otherwise drive every missing package and fold the outcomes. -/
def crates (env : Env) (ctx : Ctx) (fs : FS) :
    Except String Summary × RunOut :=
  match missingKrates env ctx fs with
  | .error e => (.error e, ⟨fs, [], [], [], []⟩)
  | .ok missing =>
    let to_sync := sortDedupKrates missing
    if to_sync.isEmpty then (.ok ⟨0, 0, 0⟩, ⟨fs, [], [], [], []⟩)
    else
      let r := runSync env ctx.root_dir to_sync fs
      (.ok (foldSummary r.outcomes ⟨0, 0, 0⟩), r)

/-! ## Proof-layer predicates -/

/-- Some file lies directly below `dir` under the entry name `name` (what a
`read_dir` listing of `dir` reports as an entry called `name`). -/
def cacheHas (fs : FS) (dir : FsPath) (name : String) : Prop :=
  ∃ e ∈ fs.files, dir <+: e.1 ∧ (e.1.drop dir.length).head? = some name

/-- The package would be found present by the prober of `crates`: for a git
source, the checkout marker path exists; for a registry source, the cache
directory of its registry lists an entry named by its local identifier. -/
def probePresent (root : FsPath) (k : Krate) (fs : FS) : Prop :=
  match k.source with
  | .git _ ident rev =>
    fs.pathExists (root ++ GIT_CO_DIR ++ [ident, rev, ".cargo-ok"]) = true
  | .registry reg _ =>
    cacheHas fs (root ++ CACHE_DIR ++ [reg.shortName]) k.local_id

/-! ## Concrete fixtures used by witnesses and counterexamples -/

/-- A registry used in concrete scenarios. -/
def regW : Registry := ⟨"https://index", "reg"⟩

/-- A registry package used in concrete scenarios. -/
def krateRW : Krate := ⟨"foo", "1.0.0", .registry regW "abc123"⟩

/-- A git package used in concrete scenarios. -/
def krateGW : Krate := ⟨"bar", "0.1.0", .git "https://repo" "abcd" "deadbeef"⟩

/-- A second git package: a distinct identity with the same local
identifier as `krateGW` (same repository and revision, another dependent). -/
def krateGW2 : Krate := ⟨"baz", "0.2.0", .git "https://repo" "abcd" "deadbeef"⟩

/-- An environment in which every external operation succeeds and every
digest matches `"abc123"`. -/
def envW : Env where
  fetch := fun _ => some [7, 7]
  digest := fun _ => "abc123"
  untar := fun _ => some [(["x"], [1])]
  gitCheckout := fun _ _ _ => some [(["y"], [2])]
  indexFetch := fun _ => true
  repoOpen := fun _ _ => false
  createFails := fun _ => false
  removeFails := fun _ => false
  readDirFails := fun _ => false

/-- The concrete required-package context used by witnesses. -/
def ctxW : Ctx := ⟨[], [krateRW, krateGW], [regW]⟩

/-- Like `envW`, but the digest of every payload is `"0bad"`: every checksum
comparison against `"abc123"` fails. -/
def envBadW : Env := { envW with digest := fun _ => "0bad" }

/-- Like `envW`, but tar extraction always fails. -/
def envUntarFailW : Env := { envW with untar := fun _ => none }

/-- Like `envW`, but a local index repository opens successfully and the
incremental index fetch fails. -/
def envIdxW : Env :=
  { envW with repoOpen := fun _ _ => true, indexFetch := fun _ => false }

/-- A filesystem holding one stale file inside `regW`'s index directory. -/
def fsIdxW : FS := ⟨[(["registry", "index", "reg", "old"], [9])]⟩

/-- Like `envW`, but reading `regW`'s cache directory fails. -/
def envReadFailW : Env :=
  { envW with readDirFails := fun p => p == ["registry", "cache", "reg"] }

/-- Two distinct package identities with the same local identifier and no
registries: the deduplication scenario. -/
def ctxDupW : Ctx := ⟨[], [krateGW, krateGW2], []⟩

/-- Like `envW`, but every backend fetch fails. -/
def envNoFetchW : Env := { envW with fetch := fun _ => none }

/-- A second registry used alongside `regW`. -/
def regW2 : Registry := ⟨"https://index2", "reg2"⟩

/-! ## Filesystem lemmas -/

theorem FS.fileExists_iff {fs : FS} {p : FsPath} :
    fs.fileExists p = true ↔ ∃ e ∈ fs.files, e.1 = p := by
  simp [FS.fileExists, List.any_eq_true]

theorem FS.pathExists_iff {fs : FS} {p : FsPath} :
    fs.pathExists p = true ↔ ∃ e ∈ fs.files, p <+: e.1 := by
  simp [FS.pathExists, List.any_eq_true, List.isPrefixOf_iff_prefix]

theorem FS.pathExists_of_fileExists {fs : FS} {q : FsPath}
    (h : fs.fileExists q = true) : fs.pathExists q = true := by
  rw [FS.fileExists_iff] at h
  rw [FS.pathExists_iff]
  obtain ⟨e, he, hq⟩ := h
  exact ⟨e, he, by rw [hq]⟩

theorem FS.fileExists_writeFile {fs : FS} {p : FsPath} {d : Bytes} {q : FsPath}
    (h : fs.fileExists q = true) : (fs.writeFile p d).fileExists q = true := by
  rw [FS.fileExists_iff] at h ⊢
  obtain ⟨e, he, hq⟩ := h
  by_cases hep : e.1 = p
  · exact ⟨(p, d), by simp [FS.writeFile], by rw [← hep]; exact hq⟩
  · exact ⟨e, by simp [FS.writeFile, List.mem_filter, he, hep], hq⟩

theorem FS.fileExists_writeFile_self (fs : FS) (p : FsPath) (d : Bytes) :
    (fs.writeFile p d).fileExists p = true := by
  rw [FS.fileExists_iff]
  exact ⟨(p, d), by simp [FS.writeFile], rfl⟩

theorem FS.pathExists_writeFile {fs : FS} {p : FsPath} {d : Bytes} {q : FsPath}
    (h : fs.pathExists q = true) : (fs.writeFile p d).pathExists q = true := by
  rw [FS.pathExists_iff] at h ⊢
  obtain ⟨e, he, hq⟩ := h
  by_cases hep : e.1 = p
  · exact ⟨(p, d), by simp [FS.writeFile], by rw [← hep]; exact hq⟩
  · exact ⟨e, by simp [FS.writeFile, List.mem_filter, he, hep], hq⟩

theorem FS.fileExists_removeDirAll {fs : FS} {p q : FsPath}
    (h : fs.fileExists q = true) (hpq : ¬ p <+: q) :
    (fs.removeDirAll p).fileExists q = true := by
  rw [FS.fileExists_iff] at h ⊢
  obtain ⟨e, he, hq⟩ := h
  refine ⟨e, ?_, hq⟩
  simp only [FS.removeDirAll, List.mem_filter, Bool.not_eq_true', he, true_and]
  rw [← Bool.not_eq_true, List.isPrefixOf_iff_prefix, hq]
  exact hpq

theorem FS.pathExists_removeDirAll {fs : FS} {p q : FsPath}
    (h : fs.pathExists q = true) (h1 : ¬ p <+: q) (h2 : ¬ q <+: p) :
    (fs.removeDirAll p).pathExists q = true := by
  rw [FS.pathExists_iff] at h ⊢
  obtain ⟨e, he, hq⟩ := h
  refine ⟨e, ?_, hq⟩
  have hnp : ¬ p <+: e.1 := by
    intro hp
    rcases List.prefix_or_prefix_of_prefix hp hq with hc | hc
    · exact h1 hc
    · exact h2 hc
  simp only [FS.removeDirAll, List.mem_filter, Bool.not_eq_true', he, true_and]
  rw [← Bool.not_eq_true, List.isPrefixOf_iff_prefix]
  exact hnp

theorem FS.fileExists_removeDirAll_false {fs : FS} {p q : FsPath}
    (h : fs.fileExists q = false) :
    (fs.removeDirAll p).fileExists q = false := by
  rw [Bool.eq_false_iff] at h ⊢
  intro ht
  apply h
  rw [FS.fileExists_iff] at ht ⊢
  obtain ⟨e, he, hq⟩ := ht
  simp only [FS.removeDirAll, List.mem_filter] at he
  exact ⟨e, he.1, hq⟩

theorem FS.fileExists_writeFile_false {fs : FS} {p : FsPath} {d : Bytes} {q : FsPath}
    (h : fs.fileExists q = false) (hpq : p ≠ q) :
    (fs.writeFile p d).fileExists q = false := by
  rw [Bool.eq_false_iff] at h ⊢
  intro ht
  apply h
  rw [FS.fileExists_iff] at ht ⊢
  obtain ⟨e, he, hq⟩ := ht
  simp only [FS.writeFile, List.mem_cons, List.mem_filter] at he
  rcases he with he | he
  · exact absurd (show p = q by rw [he] at hq; exact hq) hpq
  · exact ⟨e, he.1, hq⟩

theorem FS.unpack_pres (P : FS → Prop)
    (hP : ∀ fs p d, P fs → P (fs.writeFile p d)) (t : Tree) (p : FsPath)
    (fs : FS) (h : P fs) : P (fs.unpack p t) := by
  induction t generalizing fs with
  | nil => exact h
  | cons e t ih => exact ih _ (hP _ _ _ h)

theorem FS.fileExists_unpack {fs : FS} {p : FsPath} {t : Tree} {q : FsPath}
    (h : fs.fileExists q = true) : (fs.unpack p t).fileExists q = true :=
  FS.unpack_pres (fun fs => fs.fileExists q = true)
    (fun _ _ _ hh => FS.fileExists_writeFile hh) t p fs h

theorem FS.pathExists_unpack {fs : FS} {p : FsPath} {t : Tree} {q : FsPath}
    (h : fs.pathExists q = true) : (fs.unpack p t).pathExists q = true :=
  FS.unpack_pres (fun fs => fs.pathExists q = true)
    (fun _ _ _ hh => FS.pathExists_writeFile hh) t p fs h

theorem FS.fileExists_unpack_false {fs : FS} {p : FsPath} {t : Tree} {q : FsPath}
    (h : fs.fileExists q = false) (hq : ¬ p <+: q) :
    (fs.unpack p t).fileExists q = false := by
  induction t generalizing fs with
  | nil => exact h
  | cons e t ih =>
    refine ih ?_
    refine FS.fileExists_writeFile_false h ?_
    intro hcontra
    exact hq ⟨e.1, hcontra⟩

theorem FS.unpack_writes {p : FsPath} {t : Tree} (fs : FS) :
    ∀ e ∈ t, (fs.unpack p t).fileExists (p ++ e.1) = true := by
  induction t generalizing fs with
  | nil => intro e he; cases he
  | cons a t ih =>
    intro e he
    show ((fs.writeFile (p ++ a.1) a.2).unpack p t).fileExists (p ++ e.1) = true
    rcases List.mem_cons.mp he with rfl | hmem
    · exact FS.fileExists_unpack (FS.fileExists_writeFile_self fs (p ++ e.1) e.2)
    · exact ih _ e hmem

theorem cacheHas_writeFile {fs : FS} {dir : FsPath} {name : String}
    {p : FsPath} {d : Bytes} (h : cacheHas fs dir name) :
    cacheHas (fs.writeFile p d) dir name := by
  obtain ⟨e, he, h1, h2⟩ := h
  by_cases hep : e.1 = p
  · exact ⟨(p, d), by simp [FS.writeFile], by rw [← hep]; exact h1,
      by rw [← hep]; exact h2⟩
  · exact ⟨e, by simp [FS.writeFile, List.mem_filter, he, hep], h1, h2⟩

theorem cacheHas_writeFile_self (fs : FS) (dir : FsPath) (name : String)
    (d : Bytes) : cacheHas (fs.writeFile (dir ++ [name]) d) dir name := by
  refine ⟨(dir ++ [name], d), by simp [FS.writeFile], ⟨[name], rfl⟩, ?_⟩
  simp [List.drop_left]

theorem cacheHas_removeDirAll {fs : FS} {dir : FsPath} {name : String}
    {p : FsPath} (h : cacheHas fs dir name) (h1 : ¬ p <+: dir)
    (h2 : ¬ dir <+: p) : cacheHas (fs.removeDirAll p) dir name := by
  obtain ⟨e, he, hd, hh⟩ := h
  have hnp : ¬ p <+: e.1 := by
    intro hp
    rcases List.prefix_or_prefix_of_prefix hp hd with hc | hc
    · exact h1 hc
    · exact h2 hc
  refine ⟨e, ?_, hd, hh⟩
  simp only [FS.removeDirAll, List.mem_filter, Bool.not_eq_true', he, true_and]
  rw [← Bool.not_eq_true, List.isPrefixOf_iff_prefix]
  exact hnp

theorem cacheHas_unpack {fs : FS} {dir : FsPath} {name : String} {p : FsPath}
    {t : Tree} (h : cacheHas fs dir name) : cacheHas (fs.unpack p t) dir name :=
  FS.unpack_pres (fun fs => cacheHas fs dir name)
    (fun _ _ _ hh => cacheHas_writeFile hh) t p fs h

theorem contains_readDirNames_iff {fs : FS} {dir : FsPath} {name : String} :
    (fs.readDirNames dir).contains name = true ↔ cacheHas fs dir name := by
  rw [List.elem_iff]
  simp only [FS.readDirNames, List.mem_dedup, List.mem_filterMap]
  constructor
  · rintro ⟨e, he, hif⟩
    by_cases hp : dir.isPrefixOf e.1
    · rw [if_pos hp] at hif
      exact ⟨e, he, List.isPrefixOf_iff_prefix.mp hp, hif⟩
    · rw [if_neg hp] at hif
      cases hif
  · rintro ⟨e, he, h1, h2⟩
    exact ⟨e, he, by rw [if_pos (List.isPrefixOf_iff_prefix.mpr h1)]; exact h2⟩

/-- Two paths that differ at a component are prefix-incomparable. -/
theorem not_comparable_of_ne (r : FsPath) {x y : String} (s t : FsPath)
    (h : x ≠ y) :
    ¬ (r ++ x :: s <+: r ++ y :: t) ∧ ¬ (r ++ y :: t <+: r ++ x :: s) := by
  constructor
  · intro hp
    rw [List.prefix_append_right_inj, List.cons_prefix_cons] at hp
    exact h hp.1
  · intro hp
    rw [List.prefix_append_right_inj, List.cons_prefix_cons] at hp
    exact h hp.1.symm

theorem FS.fileExists_unpack_false_entries {fs : FS} {p : FsPath} {t : Tree}
    {q : FsPath} (h : fs.fileExists q = false)
    (he : ∀ e ∈ t, p ++ e.1 ≠ q) : (fs.unpack p t).fileExists q = false := by
  induction t generalizing fs with
  | nil => exact h
  | cons e t ih =>
    refine ih (FS.fileExists_writeFile_false h (he e (List.mem_cons_self e t)))
      (fun a ha => he a (List.mem_cons_of_mem e ha))

/-! ## `sync_package` lemmas -/

theorem sync_package_eq_on_mismatch (env : Env) (cache_dir src_dir : FsPath)
    (k : Krate) (data : Bytes) (chksum : String) (fs : FS)
    (h : validate_checksum env data chksum = false) :
    sync_package env cache_dir src_dir k data chksum fs =
      (.error "checksum mismatch", fs) := by
  simp [sync_package, h]

theorem sync_package_fst_ok (env : Env) (cache_dir src_dir : FsPath)
    (k : Krate) (data : Bytes) (chksum : String) (fs : FS)
    (h : validate_checksum env data chksum = true) :
    (sync_package env cache_dir src_dir k data chksum fs).1 = .ok () := by
  simp [sync_package, h]

theorem sync_package_fst_cases (env : Env) (cache_dir src_dir : FsPath)
    (k : Krate) (data : Bytes) (chksum : String) (fs : FS) :
    (sync_package env cache_dir src_dir k data chksum fs).1 = .ok () ↔
      validate_checksum env data chksum = true := by
  cases h : validate_checksum env data chksum with
  | true => simp [sync_package_fst_ok env cache_dir src_dir k data chksum fs h]
  | false => simp [sync_package_eq_on_mismatch env cache_dir src_dir k data chksum fs h]

/-- Any property preserved by arbitrary file writes is preserved by the
`pack_write` task. -/
theorem pack_write_P (env : Env) (p : FsPath) (d : Bytes) (fs : FS)
    (P : FS → Prop) (hw : ∀ fs p d, P fs → P (fs.writeFile p d))
    (h : P fs) : P (pack_write env p d fs) := by
  unfold pack_write
  split
  · exact h
  · exact hw _ _ _ h

/-- Any property preserved by arbitrary file writes and by removal of the
package's own source path is preserved by the `unpack` task. -/
theorem unpack_task_P (env : Env) (src_dir : FsPath) (lid : String)
    (data : Bytes) (fs : FS) (P : FS → Prop)
    (hw : ∀ fs p d, P fs → P (fs.writeFile p d))
    (hr : ∀ fs, P fs → P (fs.removeDirAll (src_dir ++ [stripExtension lid])))
    (h : P fs) : P (unpack_task env src_dir lid data fs) := by
  have hu : ∀ (fs : FS) (p : FsPath) (t : Tree), P fs → P (fs.unpack p t) :=
    fun fs p t hh => FS.unpack_pres P (fun a b c => hw a b c) t p fs hh
  unfold unpack_task
  split
  · exact h
  · split
    next heq => exact h
    next fsa heq =>
      have hfsa : P fsa := by
        split at heq
        · split at heq
          · cases heq
          · cases heq
            exact hr _ h
        · cases heq
          exact h
      split
      · exact hfsa
      · dsimp only
        split
        · exact hu _ _ _ hfsa
        · exact hw _ _ _ (hu _ _ _ hfsa)

/-- Any property preserved by arbitrary file writes and by removal of the
package's own source path is preserved by `sync_package`. -/
theorem sync_package_sndP (env : Env) (cache_dir src_dir : FsPath) (k : Krate)
    (data : Bytes) (chksum : String) (fs : FS) (P : FS → Prop)
    (hw : ∀ fs p d, P fs → P (fs.writeFile p d))
    (hr : ∀ fs, P fs → P (fs.removeDirAll (src_dir ++ [stripExtension k.local_id])))
    (h : P fs) : P (sync_package env cache_dir src_dir k data chksum fs).2 := by
  unfold sync_package
  split
  · exact h
  · exact unpack_task_P env src_dir k.local_id data _ P hw hr
      (pack_write_P env (cache_dir ++ [k.local_id]) data fs P hw h)

/-- When the checksum validates and the cache write does not fail, the cache
directory afterwards lists the package's local identifier. -/
theorem sync_package_establishes (env : Env) (cache_dir src_dir : FsPath)
    (k : Krate) (data : Bytes) (chksum : String) (fs : FS)
    (hval : validate_checksum env data chksum = true)
    (hcf : env.createFails (cache_dir ++ [k.local_id]) = false)
    (h1 : ¬ (src_dir ++ [stripExtension k.local_id]) <+: cache_dir)
    (h2 : ¬ cache_dir <+: (src_dir ++ [stripExtension k.local_id])) :
    cacheHas (sync_package env cache_dir src_dir k data chksum fs).2
      cache_dir k.local_id := by
  have hpw : pack_write env (cache_dir ++ [k.local_id]) data fs =
      fs.writeFile (cache_dir ++ [k.local_id]) data := by
    unfold pack_write
    rw [hcf]
    simp
  have h0 : cacheHas (pack_write env (cache_dir ++ [k.local_id]) data fs)
      cache_dir k.local_id := by
    rw [hpw]
    exact cacheHas_writeFile_self fs cache_dir k.local_id data
  unfold sync_package
  rw [hval]
  simp only [Bool.not_true, Bool.false_eq_true, if_false]
  exact unpack_task_P env src_dir k.local_id data _
    (fun fs => cacheHas fs cache_dir k.local_id)
    (fun _ _ _ hh => cacheHas_writeFile hh)
    (fun _ hh => cacheHas_removeDirAll hh h1 h2) h0

/-! ## `sync_git` lemmas -/

theorem remove_if_exists_P {env : Env} {p : FsPath} {fs fs1 : FS}
    (P : FS → Prop) (hr : P fs → P (fs.removeDirAll p))
    (heq : remove_if_exists env p fs = some fs1) (h : P fs) : P fs1 := by
  unfold remove_if_exists at heq
  split at heq
  · split at heq
    · cases heq
    · cases heq
      exact hr h
  · cases heq
    exact h

theorem checkout_step_cases {env : Env} {db_path co_path : FsPath}
    {co : Option Bytes} {rev : String} {fs fs4 : FS}
    (heq : checkout_step env db_path co_path co rev fs = some fs4) :
    (∃ codata tco, co = some codata ∧ env.untar codata = some tco ∧
      fs4 = fs.unpack co_path tco) ∨
    (∃ tco, co = none ∧ env.gitCheckout db_path co_path rev = some tco ∧
      fs4 = fs.unpack co_path tco) := by
  unfold checkout_step at heq
  split at heq
  next codata =>
    rw [Option.map_eq_some'] at heq
    obtain ⟨tco, hu, hf⟩ := heq
    exact Or.inl ⟨codata, tco, rfl, hu, hf.symm⟩
  next =>
    rw [Option.map_eq_some'] at heq
    obtain ⟨tco, hu, hf⟩ := heq
    exact Or.inr ⟨tco, rfl, hu, hf.symm⟩

theorem sync_git_ok_snd (env : Env) (db_dir co_dir : FsPath) (k : Krate)
    (src : GitSource) (rev : String) (fs fs2 : FS)
    (h : sync_git env db_dir co_dir k src rev fs = (.ok (), fs2)) :
    fs2.fileExists (co_dir ++ [k.local_id, rev, ".cargo-ok"]) = true := by
  have hq : co_dir ++ [k.local_id, rev] ++ [".cargo-ok"] =
      co_dir ++ [k.local_id, rev, ".cargo-ok"] := by simp
  unfold sync_git at h
  cases h1 : remove_if_exists env (db_dir ++ [k.local_id]) fs with
  | none => rw [h1] at h; simp at h
  | some fs1 =>
    rw [h1] at h
    dsimp only at h
    cases h2 : env.untar src.db with
    | none => rw [h2] at h; simp at h
    | some tdb =>
      rw [h2] at h
      dsimp only at h
      cases h3 : remove_if_exists env (co_dir ++ [k.local_id, rev])
          (fs1.unpack (db_dir ++ [k.local_id]) tdb) with
      | none => rw [h3] at h; simp at h
      | some fs3 =>
        rw [h3] at h
        dsimp only at h
        cases h4 : checkout_step env (db_dir ++ [k.local_id])
            (co_dir ++ [k.local_id, rev]) src.checkout rev fs3 with
        | none => rw [h4] at h; simp at h
        | some fs4 =>
          rw [h4] at h
          dsimp only at h
          split at h
          · simp at h
          · rw [Prod.mk.injEq] at h
            rw [← h.2, ← hq]
            exact FS.fileExists_writeFile_self _ _ _

theorem sync_git_error_snd (env : Env) (db_dir co_dir : FsPath) (k : Krate)
    (src : GitSource) (rev : String) (fs : FS)
    (hmk : fs.fileExists (co_dir ++ [k.local_id, rev, ".cargo-ok"]) = false)
    (hdb : ¬ (db_dir ++ [k.local_id]) <+: (co_dir ++ [k.local_id, rev, ".cargo-ok"]))
    (hco1 : ∀ codata tco, src.checkout = some codata → env.untar codata = some tco →
      ∀ ent ∈ tco, ent.1 ≠ ([".cargo-ok"] : FsPath))
    (hco2 : ∀ tco, env.gitCheckout (db_dir ++ [k.local_id])
        (co_dir ++ [k.local_id, rev]) rev = some tco →
      ∀ ent ∈ tco, ent.1 ≠ ([".cargo-ok"] : FsPath)) :
    ∀ e fs2, sync_git env db_dir co_dir k src rev fs = (.error e, fs2) →
      fs2.fileExists (co_dir ++ [k.local_id, rev, ".cargo-ok"]) = false := by
  have hq : co_dir ++ [k.local_id, rev] ++ [".cargo-ok"] =
      co_dir ++ [k.local_id, rev, ".cargo-ok"] := by simp
  intro e fs2 h
  unfold sync_git at h
  cases h1 : remove_if_exists env (db_dir ++ [k.local_id]) fs with
  | none =>
    rw [h1] at h
    dsimp only at h
    rw [Prod.mk.injEq] at h
    rw [← h.2]
    exact hmk
  | some fs1 =>
    rw [h1] at h
    dsimp only at h
    have hm1 : fs1.fileExists (co_dir ++ [k.local_id, rev, ".cargo-ok"]) = false :=
      remove_if_exists_P (fun x => x.fileExists (co_dir ++ [k.local_id, rev, ".cargo-ok"]) = false)
        (fun hh => FS.fileExists_removeDirAll_false hh) h1 hmk
    cases h2 : env.untar src.db with
    | none =>
      rw [h2] at h
      dsimp only at h
      rw [Prod.mk.injEq] at h
      rw [← h.2]
      exact hm1
    | some tdb =>
      rw [h2] at h
      dsimp only at h
      have hm2 : ((fs1.unpack (db_dir ++ [k.local_id]) tdb)).fileExists
          (co_dir ++ [k.local_id, rev, ".cargo-ok"]) = false :=
        FS.fileExists_unpack_false hm1 hdb
      cases h3 : remove_if_exists env (co_dir ++ [k.local_id, rev])
          (fs1.unpack (db_dir ++ [k.local_id]) tdb) with
      | none =>
        rw [h3] at h
        dsimp only at h
        rw [Prod.mk.injEq] at h
        rw [← h.2]
        exact hm2
      | some fs3 =>
        rw [h3] at h
        dsimp only at h
        have hm3 : fs3.fileExists (co_dir ++ [k.local_id, rev, ".cargo-ok"]) = false :=
          remove_if_exists_P
            (fun x => x.fileExists (co_dir ++ [k.local_id, rev, ".cargo-ok"]) = false)
            (fun hh => FS.fileExists_removeDirAll_false hh) h3 hm2
        cases h4 : checkout_step env (db_dir ++ [k.local_id])
            (co_dir ++ [k.local_id, rev]) src.checkout rev fs3 with
        | none =>
          rw [h4] at h
          dsimp only at h
          rw [Prod.mk.injEq] at h
          rw [← h.2]
          exact hm3
        | some fs4 =>
          rw [h4] at h
          dsimp only at h
          have hm4 : fs4.fileExists (co_dir ++ [k.local_id, rev, ".cargo-ok"]) = false := by
            rcases checkout_step_cases h4 with ⟨codata, tco, hsrc, huntar, hfs4⟩ |
              ⟨tco, hsrc, hgc, hfs4⟩
            · rw [hfs4]
              refine FS.fileExists_unpack_false_entries hm3 ?_
              intro ent hent hcontra
              rw [← hq] at hcontra
              exact hco1 codata tco hsrc huntar ent hent
                (List.append_cancel_left hcontra)
            · rw [hfs4]
              refine FS.fileExists_unpack_false_entries hm3 ?_
              intro ent hent hcontra
              rw [← hq] at hcontra
              exact hco2 tco hgc ent hent (List.append_cancel_left hcontra)
          split at h
          · rw [Prod.mk.injEq] at h
            rw [← h.2]
            exact hm4
          · simp at h

theorem sync_git_ok_content (env : Env) (db_dir co_dir : FsPath) (k : Krate)
    (src : GitSource) (rev : String) (fs fs2 : FS)
    (h : sync_git env db_dir co_dir k src rev fs = (.ok (), fs2)) :
    (∀ codata tco, src.checkout = some codata → env.untar codata = some tco →
      ∀ ent ∈ tco, fs2.fileExists (co_dir ++ [k.local_id, rev] ++ ent.1) = true) ∧
    (∀ tco, src.checkout = none →
      env.gitCheckout (db_dir ++ [k.local_id]) (co_dir ++ [k.local_id, rev]) rev =
        some tco →
      ∀ ent ∈ tco, fs2.fileExists (co_dir ++ [k.local_id, rev] ++ ent.1) = true) := by
  unfold sync_git at h
  cases h1 : remove_if_exists env (db_dir ++ [k.local_id]) fs with
  | none => rw [h1] at h; simp at h
  | some fs1 =>
    rw [h1] at h
    dsimp only at h
    cases h2 : env.untar src.db with
    | none => rw [h2] at h; simp at h
    | some tdb =>
      rw [h2] at h
      dsimp only at h
      cases h3 : remove_if_exists env (co_dir ++ [k.local_id, rev])
          (fs1.unpack (db_dir ++ [k.local_id]) tdb) with
      | none => rw [h3] at h; simp at h
      | some fs3 =>
        rw [h3] at h
        dsimp only at h
        cases h4 : checkout_step env (db_dir ++ [k.local_id])
            (co_dir ++ [k.local_id, rev]) src.checkout rev fs3 with
        | none => rw [h4] at h; simp at h
        | some fs4 =>
          rw [h4] at h
          dsimp only at h
          split at h
          · simp at h
          · rw [Prod.mk.injEq] at h
            have hfs2 := h.2
            constructor
            · intro codata tco hsrc huntar ent hent
              rcases checkout_step_cases h4 with ⟨codata2, tco2, hsrc2, huntar2, hfs4⟩ |
                ⟨tco2, hsrc2, hgc2, hfs4⟩
              · rw [hsrc] at hsrc2
                have hcod : codata2 = codata := by
                  injection hsrc2 with hx
                  exact hx.symm
                rw [hcod, huntar] at huntar2
                have htco : tco2 = tco := by
                  injection huntar2 with hx
                  exact hx.symm
                rw [← hfs2]
                refine FS.fileExists_writeFile ?_
                rw [hfs4, htco]
                exact FS.unpack_writes fs3 ent hent
              · rw [hsrc] at hsrc2
                cases hsrc2
            · intro tco hsrc hgc ent hent
              rcases checkout_step_cases h4 with ⟨codata2, tco2, hsrc2, huntar2, hfs4⟩ |
                ⟨tco2, hsrc2, hgc2, hfs4⟩
              · rw [hsrc] at hsrc2
                cases hsrc2
              · rw [hgc] at hgc2
                have htco : tco2 = tco := by
                  injection hgc2 with hx
                  exact hx.symm
                rw [← hfs2]
                refine FS.fileExists_writeFile ?_
                rw [hfs4, htco]
                exact FS.unpack_writes fs3 ent hent

/-! ## Claim C1 -/

/-- C1: for every registry package materialization, the checksum of the raw
fetched bytes is validated before any disk write; on a digest mismatch
`sync_package` fails for that package and returns the filesystem unchanged —
zero bytes are written to either the cache directory or the source
directory. -/
theorem sync_package_checksum_gate (env : Env) (cache_dir src_dir : FsPath)
    (krate : Krate) (data : Bytes) (chksum : String) (fs : FS)
    (h : validate_checksum env data chksum = false) :
    sync_package env cache_dir src_dir krate data chksum fs =
      (.error "checksum mismatch", fs) :=
  sync_package_eq_on_mismatch env cache_dir src_dir krate data chksum fs h

/-- Witness for C1: a concrete mismatching digest fails and writes nothing. -/
theorem sync_package_checksum_gate_witness :
    validate_checksum envBadW [7, 7] "abc123" = false ∧
    sync_package envBadW (regW.sync_dirs []).1 (regW.sync_dirs []).2 krateRW
      [7, 7] "abc123" ⟨[]⟩ = (.error "checksum mismatch", ⟨[]⟩) :=
  ⟨by decide,
   sync_package_checksum_gate envBadW (regW.sync_dirs []).1 (regW.sync_dirs []).2
     krateRW [7, 7] "abc123" ⟨[]⟩ (by decide)⟩

/-! ## Claim C3 -/

/-- C3: for every registry package whose checksum validates, `sync_package`
returns success regardless of how the cache-write or source-expansion
sub-operations fare (the environment is arbitrary, so either sub-operation
may fail; both are joined before returning), and accordingly the
orchestrator's per-package step produces an `Ok` outcome, which the summary
fold counts as a success. -/
theorem sync_package_postvalidation_success (env : Env)
    (root cache_dir src_dir : FsPath) (k : Krate) (data : Bytes)
    (chksum : String) (fs : FS)
    (hval : validate_checksum env data chksum = true) :
    (sync_package env cache_dir src_dir k data chksum fs).1 = .ok () ∧
    (∀ reg, k.source = .registry reg chksum → env.fetch k = some data →
      (syncOne env root k fs).res = .ok data.length) := by
  refine ⟨sync_package_fst_ok env cache_dir src_dir k data chksum fs hval, ?_⟩
  intro reg hsrc hfetch
  unfold syncOne
  rw [hfetch]
  dsimp only
  rw [hsrc]
  dsimp only
  rw [sync_package_fst_ok env (reg.sync_dirs root).1 (reg.sync_dirs root).2 k
    data chksum fs hval]

/-- Witness for C3: with a validating checksum the package is reported
synced. -/
theorem sync_package_postvalidation_success_witness :
    (sync_package envW (regW.sync_dirs []).1 (regW.sync_dirs []).2 krateRW
      [7, 7] "abc123" ⟨[]⟩).1 = .ok () ∧
    (syncOne envW [] krateRW ⟨[]⟩).res = .ok 2 := by
  have h := sync_package_postvalidation_success envW [] (regW.sync_dirs []).1
    (regW.sync_dirs []).2 krateRW [7, 7] "abc123" ⟨[]⟩ (by decide)
  exact ⟨h.1, h.2 regW rfl rfl⟩

/-! ## Claim C8 -/

/-- C8: in `sync_git` the checkout-completion marker is written only after
the bare-repository restore and the checkout content are fully in place (the
definition performs, in order: stale db removal, bare unpack, stale checkout
removal, checkout unpack or git checkout, marker write); if any step fails,
`sync_git` returns an error and the marker is absent.  The hypotheses say
the marker was absent to begin with (the prober only dispatches such
packages), that the db directory does not lie above the marker path, and
that the restored checkout content does not itself contain the marker file
(which `sync_git` writes separately). -/
theorem sync_git_marker_discipline (env : Env) (db_dir co_dir : FsPath)
    (k : Krate) (src : GitSource) (rev : String) (fs : FS)
    (hmk : fs.fileExists (co_dir ++ [k.local_id, rev, ".cargo-ok"]) = false)
    (hdb : ¬ (db_dir ++ [k.local_id]) <+: (co_dir ++ [k.local_id, rev, ".cargo-ok"]))
    (hco1 : ∀ codata tco, src.checkout = some codata → env.untar codata = some tco →
      ∀ ent ∈ tco, ent.1 ≠ ([".cargo-ok"] : FsPath))
    (hco2 : ∀ tco, env.gitCheckout (db_dir ++ [k.local_id])
        (co_dir ++ [k.local_id, rev]) rev = some tco →
      ∀ ent ∈ tco, ent.1 ≠ ([".cargo-ok"] : FsPath)) :
    (∀ e fs2, sync_git env db_dir co_dir k src rev fs = (.error e, fs2) →
      fs2.fileExists (co_dir ++ [k.local_id, rev, ".cargo-ok"]) = false) ∧
    (∀ fs2, sync_git env db_dir co_dir k src rev fs = (.ok (), fs2) →
      fs2.fileExists (co_dir ++ [k.local_id, rev, ".cargo-ok"]) = true ∧
      (∀ codata tco, src.checkout = some codata → env.untar codata = some tco →
        ∀ ent ∈ tco, fs2.fileExists (co_dir ++ [k.local_id, rev] ++ ent.1) = true) ∧
      (∀ tco, src.checkout = none →
        env.gitCheckout (db_dir ++ [k.local_id]) (co_dir ++ [k.local_id, rev]) rev =
          some tco →
        ∀ ent ∈ tco, fs2.fileExists (co_dir ++ [k.local_id, rev] ++ ent.1) = true)) :=
  ⟨sync_git_error_snd env db_dir co_dir k src rev fs hmk hdb hco1 hco2,
   fun fs2 h => ⟨sync_git_ok_snd env db_dir co_dir k src rev fs fs2 h,
     (sync_git_ok_content env db_dir co_dir k src rev fs fs2 h).1,
     (sync_git_ok_content env db_dir co_dir k src rev fs fs2 h).2⟩⟩

/-- Witness for C8: a concrete successful `sync_git` run ends with the
marker present. -/
theorem sync_git_marker_discipline_witness :
    ((sync_git envW GIT_DB_DIR GIT_CO_DIR krateGW ⟨[7, 7], none⟩ "deadbeef"
      ⟨[]⟩).2).fileExists
      (GIT_CO_DIR ++ [krateGW.local_id, "deadbeef", ".cargo-ok"]) = true := by
  refine (((sync_git_marker_discipline envW GIT_DB_DIR GIT_CO_DIR krateGW
    ⟨[7, 7], none⟩ "deadbeef" ⟨[]⟩ (by decide) ?_ ?_ ?_).2)
    (sync_git envW GIT_DB_DIR GIT_CO_DIR krateGW ⟨[7, 7], none⟩ "deadbeef"
      ⟨[]⟩).2 rfl).1
  · decide
  · intro codata tco h
    cases h
  · intro tco h ent hent
    have ht : tco = [(["y"], [2])] := by
      injection h with hx
      exact hx.symm
    subst ht
    simp only [List.mem_singleton] at hent
    rw [hent]
    decide


/-! ## Claim C6 -/

/-- Counterexample for C6 as stated: on an existing index whose incremental
update fails, `registry_index` deletes the directory and re-fetches in full,
but the full re-fetch path never writes the `.last-updated` freshness
marker; with a snapshot archive that does not itself contain that file, the
call succeeds with the marker absent afterwards. -/
theorem registry_index_fallback_no_marker :
    envIdxW.repoOpen ["registry", "index", "reg"] fsIdxW = true ∧
    envIdxW.indexFetch regW = false ∧
    (registry_index envIdxW [] regW fsIdxW).1 = .ok () ∧
    ((registry_index envIdxW [] regW fsIdxW).2).fileExists
      ["registry", "index", "reg", ".last-updated"] = false :=
  ⟨rfl, rfl, rfl, rfl⟩

/-- C6 (amended): for every registry whose local index opens, if the
incremental index update fails (and the removal and the snapshot fetch and
extraction succeed), `registry_index` deletes the entire local index
directory and falls back to the full re-fetch path, returning success with
exactly the snapshot contents unpacked into the index directory; the
`.last-updated` freshness marker is not written on this path, so it is
present afterwards only if the snapshot archive contains it. -/
theorem registry_index_fallback_refetch (env : Env) (root_dir : FsPath)
    (registry : Registry) (fs : FS) (data : Bytes) (t : Tree)
    (hro : env.repoOpen (root_dir ++ INDEX_DIR ++ [registry.shortName]) fs = true)
    (hif : env.indexFetch registry = false)
    (hrm : env.removeFails (root_dir ++ INDEX_DIR ++ [registry.shortName]) = false)
    (hfetch : env.fetch (index_krate registry) = some data)
    (huntar : env.untar data = some t) :
    registry_index env root_dir registry fs =
      (.ok (), ((fs.removeDirAll (root_dir ++ INDEX_DIR ++ [registry.shortName])).unpack
        (root_dir ++ INDEX_DIR ++ [registry.shortName]) t)) := by
  simp only [List.append_assoc] at hro hrm
  simp [registry_index, registry_index_full, hro, hif, hrm, hfetch, huntar]

/-- Witness for C6's amended theorem at a concrete instance. -/
theorem registry_index_fallback_refetch_witness :
    registry_index envIdxW [] regW fsIdxW =
      (.ok (), ((fsIdxW.removeDirAll ([] ++ INDEX_DIR ++ [regW.shortName])).unpack
        ([] ++ INDEX_DIR ++ [regW.shortName]) [(["x"], [1])])) :=
  registry_index_fallback_refetch envIdxW [] regW fsIdxW [7, 7] [(["x"], [1])]
    rfl rfl rfl rfl rfl

/-! ## Claim C7 -/

/-- Counterexample for C7 as stated: an extraction failure on the
NoLocalIndex path is logged and then dropped, so `registry_index` returns
success, not an error, for that registry. -/
theorem registry_index_unpack_failure_swallowed :
    envUntarFailW.fetch (index_krate regW) = some [7, 7] ∧
    envUntarFailW.untar [7, 7] = none ∧
    registry_index envUntarFailW [] regW ⟨[]⟩ = (.ok (), ⟨[]⟩) :=
  ⟨rfl, rfl, rfl⟩

/-- C7 (amended): a snapshot-fetch failure on the NoLocalIndex path is
surfaced as an error for that registry (an extraction failure is only
logged), and `registry_indices` drives every configured registry to
completion regardless of individual failures — it folds one result per
registry and itself returns success. -/
theorem registry_indices_isolation (env : Env) (root_dir : FsPath)
    (registries : List Registry) (fs : FS) :
    (registry_indices env root_dir registries fs).1 = .ok () ∧
    (registry_indices env root_dir registries fs).2.2.length = registries.length ∧
    (∀ reg fs2, env.repoOpen (root_dir ++ INDEX_DIR ++ [reg.shortName]) fs2 = false →
      env.fetch (index_krate reg) = none →
      registry_index env root_dir reg fs2 = (.error "failed to fetch index", fs2)) := by
  refine ⟨rfl, ?_, ?_⟩
  · show (registries.foldl (fun acc r =>
        let o := registry_index env root_dir r acc.1
        (o.2, acc.2 ++ [o.1])) (fs, ([] : List (Except String Unit)))).2.length =
      registries.length
    have key : ∀ (l : List Registry) (fs0 : FS) (acc : List (Except String Unit)),
        ((l.foldl (fun acc r =>
          let o := registry_index env root_dir r acc.1
          (o.2, acc.2 ++ [o.1])) (fs0, acc)).2).length = acc.length + l.length := by
      intro l
      induction l with
      | nil => intro fs0 acc; simp
      | cons r rest ih =>
        intro fs0 acc
        simp only [List.foldl_cons]
        rw [ih]
        simp
        omega
    rw [key registries fs []]
    simp
  · intro reg fs2 hro hfetch
    simp only [List.append_assoc] at hro
    simp [registry_index, registry_index_full, hro, hfetch]

/-- Witness for C7's amended theorem at a concrete instance. -/
theorem registry_indices_isolation_witness :
    (registry_indices envNoFetchW [] [regW, regW2] ⟨[]⟩).1 = .ok () ∧
    (registry_indices envNoFetchW [] [regW, regW2] ⟨[]⟩).2.2.length = 2 ∧
    registry_index envNoFetchW [] regW ⟨[]⟩ = (.error "failed to fetch index", ⟨[]⟩) := by
  have h := registry_indices_isolation envNoFetchW [] [regW, regW2] ⟨[]⟩
  exact ⟨h.1, h.2.1, h.2.2 regW ⟨[]⟩ rfl rfl⟩


/-! ## Deduplication lemmas -/

theorem dedupLoop_subset (prev : Krate) (l : List Krate) :
    ∀ x ∈ dedupLoop prev l, x ∈ l := by
  induction l generalizing prev with
  | nil => intro x hx; cases hx
  | cons k rest ih =>
    intro x hx
    unfold dedupLoop at hx
    split at hx
    · exact List.mem_cons_of_mem _ (ih prev x hx)
    · rcases List.mem_cons.mp hx with rfl | hx
      · exact List.mem_cons_self _ _
      · exact List.mem_cons_of_mem _ (ih k x hx)

theorem lebChars_antisymm : ∀ xs ys : List Char,
    lebChars xs ys = true → lebChars ys xs = true → xs = ys := by
  intro xs
  induction xs with
  | nil =>
    intro ys h1 h2
    cases ys with
    | nil => rfl
    | cons y ys => simp [lebChars] at h2
  | cons x xs ih =>
    intro ys h1 h2
    cases ys with
    | nil => simp [lebChars] at h1
    | cons y ys =>
      simp only [lebChars] at h1 h2
      have hxy : x.toNat ≤ y.toNat := by
        by_contra hc
        push_neg at hc
        rw [if_neg (by omega), if_pos hc] at h1
        cases h1
      have hyx : y.toNat ≤ x.toNat := by
        by_contra hc
        push_neg at hc
        rw [if_neg (by omega), if_pos hc] at h2
        cases h2
      have hq : x.toNat = y.toNat := by omega
      have hx : x = y := Char.ext (UInt32.ext hq)
      rw [if_neg (by omega), if_neg (by omega)] at h1
      rw [if_neg (by omega), if_neg (by omega)] at h2
      rw [hx, ih ys h1 h2]

theorem strLe_antisymm {a b : String} (h1 : strLe a b) (h2 : strLe b a) :
    a = b := by
  have hd : a.data = b.data := lebChars_antisymm a.data b.data h1 h2
  cases a with
  | mk da =>
    cases b with
    | mk db => exact congrArg String.mk hd

theorem dedupLoop_lt (prev : Krate) (l : List Krate)
    (hs : l.Sorted krateLE)
    (hp : ∀ x ∈ l, krateLE prev x) :
    ∀ x ∈ dedupLoop prev l, krateLE prev x ∧ prev.local_id ≠ x.local_id := by
  induction l generalizing prev with
  | nil => intro x hx; cases hx
  | cons k rest ih =>
    intro x hx
    rw [List.sorted_cons] at hs
    unfold dedupLoop at hx
    split at hx
    next heq =>
      have hpk : prev.local_id = k.local_id := by simpa using heq
      refine ih prev hs.2 ?_ x hx
      intro y hy
      show strLe prev.local_id y.local_id
      rw [hpk]
      exact hs.1 y hy
    next heq =>
      have hpk : prev.local_id ≠ k.local_id := by simpa using heq
      have hlt : krateLE prev k ∧ prev.local_id ≠ k.local_id :=
        ⟨hp k (List.mem_cons_self _ _), hpk⟩
      rcases List.mem_cons.mp hx with rfl | hx
      · exact hlt
      · have h2 := ih k hs.2 (fun y hy => hs.1 y hy) x hx
        refine ⟨IsTrans.trans prev k x hlt.1 h2.1, ?_⟩
        intro he
        apply hpk
        refine strLe_antisymm hlt.1 ?_
        show strLe k.local_id prev.local_id
        rw [he]
        exact h2.1

theorem dedupLoop_pairwise (prev : Krate) (l : List Krate)
    (hs : l.Sorted krateLE)
    (hp : ∀ x ∈ l, krateLE prev x) :
    (dedupLoop prev l).Pairwise
      (fun a b => krateLE a b ∧ a.local_id ≠ b.local_id) := by
  induction l generalizing prev with
  | nil => simp [dedupLoop]
  | cons k rest ih =>
    rw [List.sorted_cons] at hs
    unfold dedupLoop
    split
    next heq =>
      have hpk : prev.local_id = k.local_id := by simpa using heq
      refine ih prev hs.2 ?_
      intro y hy
      show strLe prev.local_id y.local_id
      rw [hpk]
      exact hs.1 y hy
    next heq =>
      refine List.Pairwise.cons ?_ (ih k hs.2 (fun y hy => hs.1 y hy))
      intro b hb
      exact dedupLoop_lt k rest hs.2 (fun y hy => hs.1 y hy) b hb

theorem dedupLoop_covers (prev : Krate) (l : List Krate) :
    ∀ x ∈ l, x.local_id = prev.local_id ∨
      ∃ y ∈ dedupLoop prev l, y.local_id = x.local_id := by
  induction l generalizing prev with
  | nil => intro x hx; cases hx
  | cons k rest ih =>
    intro x hx
    unfold dedupLoop
    split
    next heq =>
      have hpk : prev.local_id = k.local_id := by simpa using heq
      rcases List.mem_cons.mp hx with rfl | hx
      · exact Or.inl hpk.symm
      · exact ih prev x hx
    next heq =>
      rcases List.mem_cons.mp hx with rfl | hx
      · exact Or.inr ⟨x, List.mem_cons_self _ _, rfl⟩
      · rcases ih k x hx with h | ⟨y, hy, hyx⟩
        · exact Or.inr ⟨k, List.mem_cons_self _ _, h.symm⟩
        · exact Or.inr ⟨y, List.mem_cons_of_mem _ hy, hyx⟩

theorem sortDedup_subset {l : List Krate} : ∀ x ∈ sortDedupKrates l, x ∈ l := by
  intro x hx
  unfold sortDedupKrates at hx
  have hperm := List.perm_insertionSort krateLE l
  cases hsort : List.insertionSort krateLE l with
  | nil =>
    rw [hsort] at hx
    simp [dedupAdjacent] at hx
  | cons k rest =>
    rw [hsort] at hx hperm
    unfold dedupAdjacent at hx
    have hmem : x ∈ k :: rest := by
      rcases List.mem_cons.mp hx with rfl | hx
      · exact List.mem_cons_self _ _
      · exact List.mem_cons_of_mem _ (dedupLoop_subset k rest x hx)
    exact hperm.mem_iff.mp hmem

theorem sortDedup_pairwise_ne (l : List Krate) :
    (sortDedupKrates l).Pairwise (fun a b => a.local_id ≠ b.local_id) := by
  have hs := List.sorted_insertionSort krateLE l
  unfold sortDedupKrates
  cases hsort : List.insertionSort krateLE l with
  | nil => simp [dedupAdjacent]
  | cons k rest =>
    rw [hsort, List.sorted_cons] at hs
    unfold dedupAdjacent
    have hpw : (k :: dedupLoop k rest).Pairwise
        (fun a b => krateLE a b ∧ a.local_id ≠ b.local_id) := by
      refine List.Pairwise.cons ?_
        (dedupLoop_pairwise k rest hs.2 (fun y hy => hs.1 y hy))
      intro b hb
      exact dedupLoop_lt k rest hs.2 (fun y hy => hs.1 y hy) b hb
    exact hpw.imp (fun h => h.2)

theorem sortDedup_covers {l : List Krate} :
    ∀ x ∈ l, ∃ y ∈ sortDedupKrates l, y.local_id = x.local_id := by
  intro x hx
  have hx2 : x ∈ List.insertionSort krateLE l :=
    (List.perm_insertionSort krateLE l).mem_iff.mpr hx
  unfold sortDedupKrates
  cases hsort : List.insertionSort krateLE l with
  | nil =>
    rw [hsort] at hx2
    cases hx2
  | cons k rest =>
    rw [hsort] at hx2
    unfold dedupAdjacent
    rcases List.mem_cons.mp hx2 with rfl | hx2
    · exact ⟨x, List.mem_cons_self _ _, rfl⟩
    · rcases dedupLoop_covers k rest x hx2 with h | ⟨y, hy, hyx⟩
      · exact ⟨k, List.mem_cons_self _ _, h.symm⟩
      · exact ⟨y, List.mem_cons_of_mem _ hy, hyx⟩

theorem sortDedup_mem_of_inj {l : List Krate}
    (hinj : ∀ k1 ∈ l, ∀ k2 ∈ l, k1.local_id = k2.local_id → k1 = k2) :
    ∀ x ∈ l, x ∈ sortDedupKrates l := by
  intro x hx
  obtain ⟨y, hy, hyx⟩ := sortDedup_covers x hx
  have heq : y = x := hinj y (sortDedup_subset y hy) x hx hyx
  rw [← heq]
  exact hy

theorem countP_key_eq_one {l : List Krate} {lid : String}
    (hp : l.Pairwise (fun a b => a.local_id ≠ b.local_id))
    (he : ∃ y ∈ l, y.local_id = lid) :
    l.countP (fun k => k.local_id == lid) = 1 := by
  induction l with
  | nil =>
    obtain ⟨y, hy, _⟩ := he
    cases hy
  | cons k rest ih =>
    rw [List.pairwise_cons] at hp
    by_cases hk : k.local_id = lid
    · have hz : rest.countP (fun k => k.local_id == lid) = 0 := by
        rw [List.countP_eq_zero]
        intro a ha
        simp only [beq_iff_eq]
        rw [← hk]
        intro hcontra
        exact (hp.1 a ha) hcontra.symm
      rw [List.countP_cons_of_pos _ _ (by simpa using hk), hz]
    · rw [List.countP_cons_of_neg _ _ (by simpa using hk)]
      refine ih hp.2 ?_
      obtain ⟨y, hy, hylid⟩ := he
      rcases List.mem_cons.mp hy with rfl | hy2
      · exact absurd hylid hk
      · exact ⟨y, hy2, hylid⟩

/-! ## `runSync` and `foldSummary` lemmas -/

theorem syncOne_logs (env : Env) (root : FsPath) (k : Krate) (fs : FS) :
    (syncOne env root k fs).fetched = [k] ∧
    (syncOne env root k fs).materialized =
      (if (env.fetch k).isSome then [k] else []) := by
  unfold syncOne
  cases hf : env.fetch k with
  | none => simp
  | some d =>
    cases hsrc : k.source with
    | registry reg chk =>
      dsimp only
      cases hres : (sync_package env (reg.sync_dirs root).1 (reg.sync_dirs root).2
          k d chk fs).1 <;> simp
    | git url ident rev =>
      dsimp only
      cases hres : (sync_git env (root ++ GIT_DB_DIR) (root ++ GIT_CO_DIR) k
          ⟨d, env.fetch (checkout_id k)⟩ rev fs).1 <;> simp

theorem syncOne_res_ok (env : Env) (root : FsPath) (k : Krate) (fs : FS)
    (n : Nat) (h : (syncOne env root k fs).res = .ok n) :
    ∃ d, env.fetch k = some d ∧ n = d.length := by
  unfold syncOne at h
  cases hf : env.fetch k with
  | none =>
    rw [hf] at h
    simp at h
  | some d =>
    rw [hf] at h
    refine ⟨d, rfl, ?_⟩
    cases hsrc : k.source with
    | registry reg chk =>
      rw [hsrc] at h
      dsimp only at h
      cases hres : (sync_package env (reg.sync_dirs root).1 (reg.sync_dirs root).2
          k d chk fs).1 with
      | error e =>
        rw [hres] at h
        simp at h
      | ok u =>
        rw [hres] at h
        dsimp only at h
        injection h with h2
        exact h2.symm
    | git url ident rev =>
      rw [hsrc] at h
      dsimp only at h
      cases hres : (sync_git env (root ++ GIT_DB_DIR) (root ++ GIT_CO_DIR) k
          ⟨d, env.fetch (checkout_id k)⟩ rev fs).1 with
      | error e =>
        rw [hres] at h
        simp at h
      | ok u =>
        rw [hres] at h
        dsimp only at h
        injection h with h2
        exact h2.symm

theorem runSync_fst_outcomes (env : Env) (root : FsPath) :
    ∀ (l : List Krate) (fs : FS),
      (runSync env root l fs).outcomes.map Prod.fst = l := by
  intro l
  induction l with
  | nil => intro fs; rfl
  | cons k rest ih =>
    intro fs
    simp [runSync, ih]

theorem runSync_fetched (env : Env) (root : FsPath) :
    ∀ (l : List Krate) (fs : FS), (runSync env root l fs).fetched = l := by
  intro l
  induction l with
  | nil => intro fs; rfl
  | cons k rest ih =>
    intro fs
    simp [runSync, ih, (syncOne_logs env root k fs).1]

theorem runSync_materialized (env : Env) (root : FsPath) :
    ∀ (l : List Krate) (fs : FS),
      (runSync env root l fs).materialized =
        l.filter (fun k => (env.fetch k).isSome) := by
  intro l
  induction l with
  | nil => intro fs; rfl
  | cons k rest ih =>
    intro fs
    simp only [runSync, ih, (syncOne_logs env root k fs).2, List.filter_cons]
    cases hf : (env.fetch k).isSome <;> simp

theorem runSync_ok_len (env : Env) (root : FsPath) :
    ∀ (l : List Krate) (fs : FS), ∀ p ∈ (runSync env root l fs).outcomes,
      ∀ n, p.2 = .ok n → ∃ d, env.fetch p.1 = some d ∧ n = d.length := by
  intro l
  induction l with
  | nil =>
    intro fs p hp
    cases hp
  | cons k rest ih =>
    intro fs p hp n hn
    rcases List.mem_cons.mp hp with rfl | hp2
    · exact syncOne_res_ok env root k fs n hn
    · exact ih _ p hp2 n hn

theorem foldSummary_spec :
    ∀ (outs : List (Krate × Except String Nat)) (acc : Summary),
      foldSummary outs acc =
        ⟨acc.total_bytes + (outs.filterMap (fun p => p.2.toOption)).sum,
         acc.bad + outs.countP (fun p => !(p.2.toOption.isSome)),
         acc.good + outs.countP (fun p => p.2.toOption.isSome)⟩ := by
  intro outs
  induction outs with
  | nil =>
    intro acc
    simp [foldSummary]
  | cons p rest ih =>
    intro acc
    obtain ⟨k, res⟩ := p
    cases res with
    | ok len =>
      show foldSummary rest _ = _
      rw [ih]
      simp [List.filterMap_cons, List.countP_cons, Except.toOption,
        Summary.mk.injEq]
      all_goals omega
    | error e =>
      show foldSummary rest _ = _
      rw [ih]
      simp [List.filterMap_cons, List.countP_cons, Except.toOption,
        Summary.mk.injEq]
      all_goals omega

theorem crates_eq_of_missing (env : Env) (ctx : Ctx) (fs : FS) (m : List Krate)
    (hm : missingKrates env ctx fs = .ok m) :
    crates env ctx fs =
      (.ok (foldSummary (runSync env ctx.root_dir (sortDedupKrates m) fs).outcomes
        ⟨0, 0, 0⟩),
       runSync env ctx.root_dir (sortDedupKrates m) fs) := by
  unfold crates
  rw [hm]
  dsimp only
  split
  next hemp =>
    have hnil : sortDedupKrates m = [] := by
      simpa [List.isEmpty_iff] using hemp
    rw [hnil]
    rfl
  next => rfl

/-! ## Claim C4 -/

/-- C4: if any configured registry's cache directory cannot be read during
local-state probing, the whole sync aborts: `crates` returns an error before
any fetch is dispatched and leaves the filesystem untouched (the empty logs
show no fetch and no materialization happened).  Checkout-directory probing
uses `Path::exists`, which cannot fail, so the cache listing is the only
fallible probe. -/
theorem crates_probe_read_failure_aborts (env : Env) (ctx : Ctx) (fs : FS)
    (r : Registry) (hr : r ∈ ctx.registries)
    (hf : env.readDirFails (r.sync_dirs ctx.root_dir).1 = true) :
    ∃ e, crates env ctx fs = (.error e, ⟨fs, [], [], [], []⟩) := by
  have hloop : ∀ l : List Registry, r ∈ l →
      ∃ e, missingRegistryLoop env ctx fs l = .error e := by
    intro l
    induction l with
    | nil => intro h; cases h
    | cons r0 rest ih =>
      intro h
      rcases List.mem_cons.mp h with rfl | h2
      · exact ⟨"failed to read cache dir",
          by simp [missingRegistryLoop, get_missing_registry_sources, hf]⟩
      · cases hg : get_missing_registry_sources env ctx.krates r0
            (r0.sync_dirs ctx.root_dir).1 fs with
        | error e => exact ⟨e, by simp [missingRegistryLoop, hg]⟩
        | ok l0 =>
          obtain ⟨e, he⟩ := ih h2
          exact ⟨e, by simp [missingRegistryLoop, hg, he]⟩
  obtain ⟨e, he⟩ := hloop ctx.registries hr
  refine ⟨e, ?_⟩
  unfold crates missingKrates
  rw [he]

/-- Witness for C4: with `regW`'s cache directory unreadable, `crates`
dispatches nothing and changes nothing. -/
theorem crates_probe_read_failure_aborts_witness :
    (crates envReadFailW ctxW ⟨[]⟩).2 = ⟨⟨[]⟩, [], [], [], []⟩ := by
  obtain ⟨e, he⟩ := crates_probe_read_failure_aborts envReadFailW ctxW ⟨[]⟩ regW
    (by simp [ctxW]) rfl
  rw [he]

/-! ## Claim C5 -/

/-- C5: when two distinct package identities in the missing set resolve to
the same local identifier, the orchestrator deduplicates on that identifier
before fetching: exactly one fetch is dispatched for that identifier, and
(provided the fetch of any package with that identifier succeeds) exactly
one materialization occurs for it. -/
theorem crates_dedup_local_id (env : Env) (ctx : Ctx) (fs : FS)
    (m : List Krate) (k1 k2 : Krate)
    (hm : missingKrates env ctx fs = .ok m)
    (h1 : k1 ∈ m) (h2 : k2 ∈ m) (hne : k1 ≠ k2)
    (hlid : k1.local_id = k2.local_id)
    (hf : ∀ k, k.local_id = k1.local_id → (env.fetch k).isSome = true) :
    (crates env ctx fs).2.fetched.countP
      (fun k => k.local_id == k1.local_id) = 1 ∧
    (crates env ctx fs).2.materialized.countP
      (fun k => k.local_id == k1.local_id) = 1 := by
  rw [crates_eq_of_missing env ctx fs m hm]
  dsimp only
  rw [runSync_fetched, runSync_materialized]
  have hcnt : (sortDedupKrates m).countP (fun k => k.local_id == k1.local_id) = 1 :=
    countP_key_eq_one (sortDedup_pairwise_ne m) (sortDedup_covers k1 h1)
  refine ⟨hcnt, ?_⟩
  rw [List.countP_filter, ← hcnt]
  refine List.countP_congr ?_
  intro x hx
  simp only [Bool.and_eq_true, beq_iff_eq]
  constructor
  · intro hand
    exact hand.1
  · intro hxl
    exact ⟨hxl, hf x hxl⟩

/-- Witness for C5: the two same-identifier git packages are fetched and
materialized once. -/
theorem crates_dedup_local_id_witness :
    (crates envW ctxDupW ⟨[]⟩).2.fetched.countP
      (fun k => k.local_id == krateGW.local_id) = 1 ∧
    (crates envW ctxDupW ⟨[]⟩).2.materialized.countP
      (fun k => k.local_id == krateGW.local_id) = 1 :=
  crates_dedup_local_id envW ctxDupW ⟨[]⟩ [krateGW, krateGW2] krateGW krateGW2
    rfl (by simp) (by simp) (by decide) rfl (fun k _ => rfl)

/-! ## Claim C9 -/

/-- C9: after a successful probe, `crates` returns the fold of the
per-package outcomes: the run out is exactly `runSync` over the deduplicated
missing set; `good` counts the successful outcomes and `bad` the failed
ones; `total_bytes` sums the successful outcomes' recorded lengths, and each
recorded length is the byte length of that package's primary fetch (the
checkout companion's bytes are never recorded); every missing package is
fetched (no failure aborts the run, every dispatched package has exactly one
outcome); an empty missing set returns a zero summary with no fetches. -/
theorem crates_summary_fold (env : Env) (ctx : Ctx) (fs : FS) (m : List Krate)
    (hm : missingKrates env ctx fs = .ok m) :
    crates env ctx fs =
      (.ok (foldSummary (runSync env ctx.root_dir (sortDedupKrates m) fs).outcomes
        ⟨0, 0, 0⟩),
       runSync env ctx.root_dir (sortDedupKrates m) fs) ∧
    (foldSummary (runSync env ctx.root_dir (sortDedupKrates m) fs).outcomes
      ⟨0, 0, 0⟩).good =
      (runSync env ctx.root_dir (sortDedupKrates m) fs).outcomes.countP
        (fun p => p.2.toOption.isSome) ∧
    (foldSummary (runSync env ctx.root_dir (sortDedupKrates m) fs).outcomes
      ⟨0, 0, 0⟩).bad =
      (runSync env ctx.root_dir (sortDedupKrates m) fs).outcomes.countP
        (fun p => !(p.2.toOption.isSome)) ∧
    (foldSummary (runSync env ctx.root_dir (sortDedupKrates m) fs).outcomes
      ⟨0, 0, 0⟩).total_bytes =
      ((runSync env ctx.root_dir (sortDedupKrates m) fs).outcomes.filterMap
        (fun p => p.2.toOption)).sum ∧
    (runSync env ctx.root_dir (sortDedupKrates m) fs).outcomes.map Prod.fst =
      sortDedupKrates m ∧
    (runSync env ctx.root_dir (sortDedupKrates m) fs).fetched = sortDedupKrates m ∧
    (∀ p ∈ (runSync env ctx.root_dir (sortDedupKrates m) fs).outcomes,
      ∀ n, p.2 = .ok n → ∃ d, env.fetch p.1 = some d ∧ n = d.length) ∧
    (m = [] → crates env ctx fs = (.ok ⟨0, 0, 0⟩, ⟨fs, [], [], [], []⟩)) := by
  refine ⟨crates_eq_of_missing env ctx fs m hm, ?_, ?_, ?_,
    runSync_fst_outcomes env ctx.root_dir _ fs,
    runSync_fetched env ctx.root_dir _ fs,
    runSync_ok_len env ctx.root_dir _ fs, ?_⟩
  · rw [foldSummary_spec]
    simp
  · rw [foldSummary_spec]
    simp
  · rw [foldSummary_spec]
    simp
  · intro hnil
    rw [crates_eq_of_missing env ctx fs m hm, hnil]
    rfl

/-- Witness for C9: the summary of a concrete two-package run is its
outcome fold, and the fetch log is the deduplicated missing set. -/
theorem crates_summary_fold_witness :
    (crates envW ctxW ⟨[]⟩).2.fetched = sortDedupKrates [krateGW, krateRW] := by
  have h := crates_summary_fold envW ctxW ⟨[]⟩ [krateGW, krateRW] rfl
  rw [h.1]
  exact h.2.2.2.2.2.1


/-! ## Probe preservation and establishment (infrastructure for idempotence) -/

theorem probePresent_writeFile {root : FsPath} {j : Krate} {fs : FS}
    {p : FsPath} {d : Bytes} (h : probePresent root j fs) :
    probePresent root j (fs.writeFile p d) := by
  unfold probePresent at h ⊢
  cases hj : j.source with
  | git url ident rev =>
    rw [hj] at h
    dsimp only at h ⊢
    exact FS.pathExists_writeFile h
  | registry reg chk =>
    rw [hj] at h
    dsimp only at h ⊢
    exact cacheHas_writeFile h

theorem sync_git_sndP (env : Env) (db_dir co_dir : FsPath) (k : Krate)
    (src : GitSource) (rev : String) (fs : FS) (P : FS → Prop)
    (hw : ∀ fs p d, P fs → P (fs.writeFile p d))
    (hr1 : ∀ fs, P fs → P (fs.removeDirAll (db_dir ++ [k.local_id])))
    (hr2 : ∀ fs, P fs → P (fs.removeDirAll (co_dir ++ [k.local_id, rev])))
    (h : P fs) : P (sync_git env db_dir co_dir k src rev fs).2 := by
  have hu : ∀ (fs : FS) (p : FsPath) (t : Tree), P fs → P (fs.unpack p t) :=
    fun fs p t hh => FS.unpack_pres P (fun a b c => hw a b c) t p fs hh
  unfold sync_git
  cases h1 : remove_if_exists env (db_dir ++ [k.local_id]) fs with
  | none => exact h
  | some fs1 =>
    dsimp only
    have hp1 : P fs1 := remove_if_exists_P P (hr1 fs) h1 h
    cases h2 : env.untar src.db with
    | none => exact hp1
    | some tdb =>
      dsimp only
      have hp2 : P (fs1.unpack (db_dir ++ [k.local_id]) tdb) := hu _ _ _ hp1
      cases h3 : remove_if_exists env (co_dir ++ [k.local_id, rev])
          (fs1.unpack (db_dir ++ [k.local_id]) tdb) with
      | none => exact hp2
      | some fs3 =>
        dsimp only
        have hp3 : P fs3 := remove_if_exists_P P (hr2 _) h3 hp2
        cases h4 : checkout_step env (db_dir ++ [k.local_id])
            (co_dir ++ [k.local_id, rev]) src.checkout rev fs3 with
        | none => exact hp3
        | some fs4 =>
          dsimp only
          have hp4 : P fs4 := by
            rcases checkout_step_cases h4 with ⟨_, tco, _, _, hf4⟩ | ⟨tco, _, _, hf4⟩ <;>
              (rw [hf4]; exact hu _ _ _ hp3)
          split
          · exact hp4
          · exact hw _ _ _ hp4

/-- The probe target of package `j` survives removal of the source path of a
registry package with local identifier `la` (the directories differ). -/
theorem probePresent_remove_src {root : FsPath} {j : Krate} {fs : FS}
    (sA st : String) (h : probePresent root j fs) :
    probePresent root j
      (fs.removeDirAll (root ++ SRC_DIR ++ [sA] ++ [st])) := by
  unfold probePresent at h ⊢
  cases hj : j.source with
  | git url ident rev =>
    rw [hj] at h
    dsimp only at h ⊢
    refine FS.pathExists_removeDirAll h ?_ ?_
    · intro hp
      simp only [SRC_DIR, GIT_CO_DIR, List.append_assoc, List.cons_append,
        List.nil_append] at hp
      rw [List.prefix_append_right_inj] at hp
      simp [List.cons_prefix_cons] at hp
    · intro hp
      simp only [SRC_DIR, GIT_CO_DIR, List.append_assoc, List.cons_append,
        List.nil_append] at hp
      rw [List.prefix_append_right_inj] at hp
      simp [List.cons_prefix_cons] at hp
  | registry reg chk =>
    rw [hj] at h
    dsimp only at h ⊢
    refine cacheHas_removeDirAll h ?_ ?_
    · intro hp
      simp only [SRC_DIR, CACHE_DIR, List.append_assoc, List.cons_append,
        List.nil_append] at hp
      rw [List.prefix_append_right_inj] at hp
      simp [List.cons_prefix_cons] at hp
    · intro hp
      simp only [SRC_DIR, CACHE_DIR, List.append_assoc, List.cons_append,
        List.nil_append] at hp
      rw [List.prefix_append_right_inj] at hp
      simp [List.cons_prefix_cons] at hp

/-- The probe target of package `j` survives removal of the git db path of a
package `a` (the `git/db` tree holds no probe targets). -/
theorem probePresent_remove_db {root : FsPath} {j : Krate} {fs : FS}
    (la : String) (h : probePresent root j fs) :
    probePresent root j (fs.removeDirAll (root ++ GIT_DB_DIR ++ [la])) := by
  unfold probePresent at h ⊢
  cases hj : j.source with
  | git url ident rev =>
    rw [hj] at h
    dsimp only at h ⊢
    refine FS.pathExists_removeDirAll h ?_ ?_
    · intro hp
      simp only [GIT_DB_DIR, GIT_CO_DIR, List.append_assoc, List.cons_append,
        List.nil_append] at hp
      rw [List.prefix_append_right_inj] at hp
      simp [List.cons_prefix_cons] at hp
    · intro hp
      simp only [GIT_DB_DIR, GIT_CO_DIR, List.append_assoc, List.cons_append,
        List.nil_append] at hp
      rw [List.prefix_append_right_inj] at hp
      simp [List.cons_prefix_cons] at hp
  | registry reg chk =>
    rw [hj] at h
    dsimp only at h ⊢
    refine cacheHas_removeDirAll h ?_ ?_
    · intro hp
      simp only [GIT_DB_DIR, CACHE_DIR, List.append_assoc, List.cons_append,
        List.nil_append] at hp
      rw [List.prefix_append_right_inj] at hp
      simp [List.cons_prefix_cons] at hp
    · intro hp
      simp only [GIT_DB_DIR, CACHE_DIR, List.append_assoc, List.cons_append,
        List.nil_append] at hp
      rw [List.prefix_append_right_inj] at hp
      simp [List.cons_prefix_cons] at hp

/-- The probe target of package `j` survives removal of the checkout path of
a package with a different local identifier. -/
theorem probePresent_remove_co {root : FsPath} {j : Krate} {fs : FS}
    (la rva : String) (hla : la ≠ j.local_id) (h : probePresent root j fs) :
    probePresent root j (fs.removeDirAll (root ++ GIT_CO_DIR ++ [la, rva])) := by
  unfold probePresent at h ⊢
  cases hj : j.source with
  | git url ident rev =>
    have hid : j.local_id = ident := by
      simp [Krate.local_id, hj]
    rw [hj] at h
    dsimp only at h ⊢
    refine FS.pathExists_removeDirAll h ?_ ?_
    · intro hp
      simp only [GIT_CO_DIR, List.append_assoc, List.cons_append,
        List.nil_append] at hp
      rw [List.prefix_append_right_inj] at hp
      simp only [List.cons_prefix_cons] at hp
      refine hla ?_
      rw [hid]
      exact hp.2.2.1
    · intro hp
      simp only [GIT_CO_DIR, List.append_assoc, List.cons_append,
        List.nil_append] at hp
      rw [List.prefix_append_right_inj] at hp
      simp only [List.cons_prefix_cons] at hp
      refine hla ?_
      rw [hid]
      exact hp.2.2.1.symm
  | registry reg chk =>
    rw [hj] at h
    dsimp only at h ⊢
    refine cacheHas_removeDirAll h ?_ ?_
    · intro hp
      simp only [GIT_CO_DIR, CACHE_DIR, List.append_assoc, List.cons_append,
        List.nil_append] at hp
      rw [List.prefix_append_right_inj] at hp
      simp [List.cons_prefix_cons] at hp
    · intro hp
      simp only [GIT_CO_DIR, CACHE_DIR, List.append_assoc, List.cons_append,
        List.nil_append] at hp
      rw [List.prefix_append_right_inj] at hp
      simp [List.cons_prefix_cons] at hp

/-- Processing one missing package preserves the probe target of every
package with a different local identifier. -/
theorem syncOne_preserves (env : Env) (root : FsPath) (a j : Krate) (fs : FS)
    (hlid : a.local_id ≠ j.local_id) (h : probePresent root j fs) :
    probePresent root j (syncOne env root a fs).fs := by
  unfold syncOne
  cases hf : env.fetch a with
  | none => exact h
  | some d =>
    cases hsrc : a.source with
    | registry reg chk =>
      dsimp only
      cases hres : (sync_package env (reg.sync_dirs root).1 (reg.sync_dirs root).2
          a d chk fs).1 <;>
      · dsimp only
        refine sync_package_sndP env (reg.sync_dirs root).1 (reg.sync_dirs root).2
          a d chk fs (probePresent root j)
          (fun _ _ _ hh => probePresent_writeFile hh) ?_ h
        intro fs0 h0
        have hgoal := @probePresent_remove_src root j fs0 reg.shortName
          (stripExtension a.local_id) h0
        simpa [Registry.sync_dirs] using hgoal
    | git url ident rev =>
      dsimp only
      cases hres : (sync_git env (root ++ GIT_DB_DIR) (root ++ GIT_CO_DIR) a
          ⟨d, env.fetch (checkout_id a)⟩ rev fs).1 <;>
      · dsimp only
        refine sync_git_sndP env (root ++ GIT_DB_DIR) (root ++ GIT_CO_DIR) a
          ⟨d, env.fetch (checkout_id a)⟩ rev fs (probePresent root j)
          (fun _ _ _ hh => probePresent_writeFile hh) ?_ ?_ h
        · intro fs0 h0
          have hgoal := @probePresent_remove_db root j fs0 a.local_id h0
          simpa using hgoal
        · intro fs0 h0
          have hgoal := @probePresent_remove_co root j fs0 a.local_id rev
            hlid h0
          simpa using hgoal


/-- When its fetch and materialization succeed (and file creation does not
fail), a processed package's probe target is established. -/
theorem syncOne_establishes (env : Env) (root : FsPath) (a : Krate) (fs : FS)
    (hc : env.createFails = fun _ => false)
    (hok : ∃ n, (syncOne env root a fs).res = .ok n) :
    probePresent root a (syncOne env root a fs).fs := by
  obtain ⟨n, hres⟩ := hok
  unfold syncOne at hres ⊢
  cases hf : env.fetch a with
  | none =>
    rw [hf] at hres
    simp at hres
  | some d =>
    rw [hf] at hres
    cases hsrc : a.source with
    | registry reg chk =>
      rw [hsrc] at hres
      dsimp only at hres ⊢
      cases hres2 : (sync_package env (reg.sync_dirs root).1 (reg.sync_dirs root).2
          a d chk fs).1 with
      | error e =>
        rw [hres2] at hres
        simp at hres
      | ok u =>
        dsimp only
        have hval : validate_checksum env d chk = true := by
          refine (sync_package_fst_cases env (reg.sync_dirs root).1
            (reg.sync_dirs root).2 a d chk fs).mp ?_
          rw [hres2]
        have h1 : ¬ ((reg.sync_dirs root).2 ++ [stripExtension a.local_id]) <+:
            (reg.sync_dirs root).1 := by
          intro hp
          simp only [Registry.sync_dirs, SRC_DIR, CACHE_DIR, List.append_assoc,
            List.cons_append, List.nil_append] at hp
          rw [List.prefix_append_right_inj] at hp
          simp [List.cons_prefix_cons] at hp
        have h2 : ¬ (reg.sync_dirs root).1 <+:
            ((reg.sync_dirs root).2 ++ [stripExtension a.local_id]) := by
          intro hp
          simp only [Registry.sync_dirs, SRC_DIR, CACHE_DIR, List.append_assoc,
            List.cons_append, List.nil_append] at hp
          rw [List.prefix_append_right_inj] at hp
          simp [List.cons_prefix_cons] at hp
        have hcache := sync_package_establishes env (reg.sync_dirs root).1
          (reg.sync_dirs root).2 a d chk fs hval (by rw [hc]) h1 h2
        unfold probePresent
        rw [hsrc]
        dsimp only
        simpa [Registry.sync_dirs] using hcache
    | git url ident rev =>
      rw [hsrc] at hres
      dsimp only at hres ⊢
      cases hgres : (sync_git env (root ++ GIT_DB_DIR) (root ++ GIT_CO_DIR) a
          ⟨d, env.fetch (checkout_id a)⟩ rev fs).1 with
      | error e =>
        rw [hgres] at hres
        simp at hres
      | ok u =>
        dsimp only
        have heq0 : sync_git env (root ++ GIT_DB_DIR) (root ++ GIT_CO_DIR) a
            ⟨d, env.fetch (checkout_id a)⟩ rev fs =
            ((sync_git env (root ++ GIT_DB_DIR) (root ++ GIT_CO_DIR) a
              ⟨d, env.fetch (checkout_id a)⟩ rev fs).1,
             (sync_git env (root ++ GIT_DB_DIR) (root ++ GIT_CO_DIR) a
              ⟨d, env.fetch (checkout_id a)⟩ rev fs).2) := rfl
        rw [hgres] at heq0
        have hmk := sync_git_ok_snd env (root ++ GIT_DB_DIR) (root ++ GIT_CO_DIR) a
          ⟨d, env.fetch (checkout_id a)⟩ rev fs _ heq0
        have hid : a.local_id = ident := by
          simp [Krate.local_id, hsrc]
        unfold probePresent
        rw [hsrc]
        dsimp only
        refine FS.pathExists_of_fileExists ?_
        rw [← hid]
        exact hmk

theorem runSync_preserves (env : Env) (root : FsPath) (j : Krate) :
    ∀ (l : List Krate) (fs : FS), (∀ a ∈ l, a.local_id ≠ j.local_id) →
      probePresent root j fs → probePresent root j (runSync env root l fs).fs := by
  intro l
  induction l with
  | nil => intro fs _ h; exact h
  | cons k rest ih =>
    intro fs hl h
    show probePresent root j (runSync env root rest (syncOne env root k fs).fs).fs
    refine ih _ (fun a ha => hl a (List.mem_cons_of_mem _ ha)) ?_
    exact syncOne_preserves env root k j fs (hl k (List.mem_cons_self _ _)) h

theorem runSync_establishes (env : Env) (root : FsPath)
    (hc : env.createFails = fun _ => false) :
    ∀ (l : List Krate) (fs : FS),
      l.Pairwise (fun x y => x.local_id ≠ y.local_id) →
      (∀ p ∈ (runSync env root l fs).outcomes, ∃ n, p.2 = .ok n) →
      ∀ k ∈ l, probePresent root k (runSync env root l fs).fs := by
  intro l
  induction l with
  | nil =>
    intro fs _ _ k hk
    cases hk
  | cons a rest ih =>
    intro fs hp hok k hk
    rw [List.pairwise_cons] at hp
    have hra : ∃ n, (syncOne env root a fs).res = .ok n := by
      refine hok (a, (syncOne env root a fs).res) ?_
      show (a, (syncOne env root a fs).res) ∈
        (a, (syncOne env root a fs).res) ::
          (runSync env root rest (syncOne env root a fs).fs).outcomes
      exact List.mem_cons_self _ _
    have hok2 : ∀ p ∈ (runSync env root rest (syncOne env root a fs).fs).outcomes,
        ∃ n, p.2 = .ok n := by
      intro p hp2
      refine hok p ?_
      show p ∈ (a, (syncOne env root a fs).res) ::
        (runSync env root rest (syncOne env root a fs).fs).outcomes
      exact List.mem_cons_of_mem _ hp2
    rcases List.mem_cons.mp hk with rfl | hk2
    · show probePresent root k (runSync env root rest (syncOne env root k fs).fs).fs
      refine runSync_preserves env root k rest _ ?_
        (syncOne_establishes env root k fs hc hra)
      intro x hx
      exact (hp.1 x hx).symm
    · show probePresent root k (runSync env root rest (syncOne env root a fs).fs).fs
      exact ih _ hp.2 hok2 k hk2

/-- The git prober reports nothing when every git package's marker path
exists. -/
theorem get_missing_git_nil (krates : List Krate) (co_dir : FsPath) (fs : FS)
    (h : ∀ k ∈ krates, ∀ url ident rev, k.source = .git url ident rev →
      fs.pathExists (co_dir ++ [ident, rev, ".cargo-ok"]) = true) :
    get_missing_git_sources krates co_dir fs = [] := by
  rw [get_missing_git_sources, List.filter_eq_nil_iff]
  intro k hk
  cases hsrc : k.source with
  | registry reg chk =>
    simp [hsrc]
  | git url ident rev =>
    simp [hsrc, h k hk url ident rev hsrc]

/-- The whole registry probing pass reports nothing when reads succeed and
every configured registry's cache listing contains each of its packages. -/
theorem missingRegistryLoop_nil (env : Env) (ctx : Ctx) (fs : FS)
    (hrd : env.readDirFails = fun _ => false) :
    ∀ l : List Registry,
      (∀ r ∈ l, ∀ k ∈ ctx.krates, k.inRegistry r = true →
        (fs.readDirNames ((r.sync_dirs ctx.root_dir).1)).contains k.local_id = true) →
      missingRegistryLoop env ctx fs l = .ok [] := by
  intro l
  induction l with
  | nil => intro _; rfl
  | cons r rest ih =>
    intro h
    have hflt : ctx.krates.filter (fun k =>
        k.inRegistry r &&
          !((fs.readDirNames ((r.sync_dirs ctx.root_dir).1)).contains k.local_id)) =
        [] := by
      rw [List.filter_eq_nil_iff]
      intro k hk
      cases hin : k.inRegistry r with
      | false => simp [hin]
      | true =>
        have hcont := h r (List.mem_cons_self _ _) k hk hin
        simp [hin]
        exact List.elem_iff.mp hcont
    have hg : get_missing_registry_sources env ctx.krates r
        (r.sync_dirs ctx.root_dir).1 fs = .ok [] := by
      unfold get_missing_registry_sources
      rw [hrd]
      simp only [Bool.false_eq_true, if_false, hflt]
    unfold missingRegistryLoop
    rw [hg]
    dsimp only
    rw [ih (fun r2 hr2 => h r2 (List.mem_cons_of_mem _ hr2))]
    rfl

/-- Probing failures aside, a package missing from one configured registry's
cache listing ends up in the probing pass's output. -/
theorem missingRegistryLoop_mem (env : Env) (ctx : Ctx) (fs : FS) :
    ∀ (l : List Registry) (lr : List Krate),
      missingRegistryLoop env ctx fs l = .ok lr →
      ∀ r ∈ l, ∀ k ∈ ctx.krates, k.inRegistry r = true →
        (fs.readDirNames ((r.sync_dirs ctx.root_dir).1)).contains k.local_id = false →
        k ∈ lr := by
  intro l
  induction l with
  | nil =>
    intro lr _ r hr
    cases hr
  | cons r0 rest ih =>
    intro lr hloop r hr k hk hin hmiss
    unfold missingRegistryLoop at hloop
    cases hg : get_missing_registry_sources env ctx.krates r0
        (r0.sync_dirs ctx.root_dir).1 fs with
    | error e =>
      rw [hg] at hloop
      cases hloop
    | ok l0 =>
      rw [hg] at hloop
      dsimp only at hloop
      cases hrest : missingRegistryLoop env ctx fs rest with
      | error e =>
        rw [hrest] at hloop
        cases hloop
      | ok l2 =>
        rw [hrest] at hloop
        dsimp only at hloop
        injection hloop with hlr
        rcases List.mem_cons.mp hr with rfl | hr2
        · -- the failing registry is the head
          have hk0 : k ∈ l0 := by
            unfold get_missing_registry_sources at hg
            split at hg
            · cases hg
            · injection hg with hg2
              rw [← hg2]
              refine List.mem_filter.mpr ⟨hk, ?_⟩
              simp [hin]
              intro hmem
              have hcontra : (fs.readDirNames (r.sync_dirs ctx.root_dir).1).contains
                  k.local_id = true := List.elem_iff.mpr hmem
              rw [hcontra] at hmiss
              cases hmiss
          rw [← hlr]
          exact List.mem_append_left _ hk0
        · rw [← hlr]
          exact List.mem_append_right _ (ih l2 hrest r hr2 k hk hin hmiss)

/-- Everything the probing pass reports is a required package. -/
theorem missingRegistryLoop_subset (env : Env) (ctx : Ctx) (fs : FS) :
    ∀ (l : List Registry) (lr : List Krate),
      missingRegistryLoop env ctx fs l = .ok lr → ∀ k ∈ lr, k ∈ ctx.krates := by
  intro l
  induction l with
  | nil =>
    intro lr hloop k hks
    cases hloop
    cases hks
  | cons r0 rest ih =>
    intro lr hloop k hks
    unfold missingRegistryLoop at hloop
    cases hg : get_missing_registry_sources env ctx.krates r0
        (r0.sync_dirs ctx.root_dir).1 fs with
    | error e =>
      rw [hg] at hloop
      cases hloop
    | ok l0 =>
      rw [hg] at hloop
      dsimp only at hloop
      cases hrest : missingRegistryLoop env ctx fs rest with
      | error e =>
        rw [hrest] at hloop
        cases hloop
      | ok l2 =>
        rw [hrest] at hloop
        dsimp only at hloop
        injection hloop with hlr
        rw [← hlr] at hks
        rcases List.mem_append.mp hks with hks | hks
        · unfold get_missing_registry_sources at hg
          split at hg
          · cases hg
          · injection hg with hg2
            rw [← hg2] at hks
            exact (List.mem_filter.mp hks).1
        · exact ih l2 hrest k hks


/-! ## Claim C2 -/

/-- C2: idempotence of a full sync.  The hypotheses formalize "a first run
in which every package materialized successfully, with no external state
change": file creation and directory listing never fail, distinct required
packages have distinct local identifiers (so deduplication only merges true
duplicates), and the first run returned with a zero failure count.  Then the
prober finds every package present on the resulting tree — in particular the
checkout-marker path it tests is the path `sync_git` wrote and the cache
file name it searches for is the name `sync_package` wrote — so a second run
performs zero backend fetches, returns the zero summary, and leaves the
directory tree identical. -/
theorem crates_idempotent (env : Env) (ctx : Ctx) (fs0 : FS)
    (hc : env.createFails = fun _ => false)
    (hd : env.readDirFails = fun _ => false)
    (hinj : ∀ k1 ∈ ctx.krates, ∀ k2 ∈ ctx.krates,
      k1.local_id = k2.local_id → k1 = k2)
    (hgood : ((crates env ctx fs0).1).map Summary.bad = .ok 0) :
    missingKrates env ctx (crates env ctx fs0).2.fs = .ok [] ∧
    crates env ctx (crates env ctx fs0).2.fs =
      (.ok ⟨0, 0, 0⟩, ⟨(crates env ctx fs0).2.fs, [], [], [], []⟩) := by
  obtain ⟨m, hm⟩ : ∃ m, missingKrates env ctx fs0 = .ok m := by
    cases hmm : missingKrates env ctx fs0 with
    | error e =>
      unfold crates at hgood
      rw [hmm] at hgood
      simp [Except.map] at hgood
    | ok m => exact ⟨m, rfl⟩
  have hcr := crates_eq_of_missing env ctx fs0 m hm
  have hbad : (foldSummary
      (runSync env ctx.root_dir (sortDedupKrates m) fs0).outcomes ⟨0, 0, 0⟩).bad = 0 := by
    rw [hcr] at hgood
    simpa [Except.map] using hgood
  have hallok : ∀ p ∈ (runSync env ctx.root_dir (sortDedupKrates m) fs0).outcomes,
      ∃ n, p.2 = .ok n := by
    rw [foldSummary_spec] at hbad
    dsimp only at hbad
    rw [Nat.zero_add] at hbad
    rw [List.countP_eq_zero] at hbad
    intro p hp
    have hb := hbad p hp
    cases hpp : p.2 with
    | ok nn => exact ⟨nn, rfl⟩
    | error e =>
      rw [hpp] at hb
      simp [Except.toOption] at hb
  obtain ⟨lr, hlr, hmE⟩ : ∃ lr,
      missingRegistryLoop env ctx fs0 ctx.registries = .ok lr ∧
      m = get_missing_git_sources ctx.krates (ctx.root_dir ++ GIT_CO_DIR) fs0 ++ lr := by
    unfold missingKrates at hm
    cases hL : missingRegistryLoop env ctx fs0 ctx.registries with
    | error e =>
      rw [hL] at hm
      cases hm
    | ok lr =>
      rw [hL] at hm
      dsimp only at hm
      injection hm with hm2
      exact ⟨lr, rfl, hm2.symm⟩
  have hmsub : ∀ k ∈ m, k ∈ ctx.krates := by
    intro k hkm
    rw [hmE] at hkm
    rcases List.mem_append.mp hkm with hkm | hkm
    · exact (List.mem_filter.mp hkm).1
    · exact missingRegistryLoop_subset env ctx fs0 ctx.registries lr hlr k hkm
  have hest := runSync_establishes env ctx.root_dir hc (sortDedupKrates m) fs0
    (sortDedup_pairwise_ne m) hallok
  have hcarry : ∀ k ∈ ctx.krates, (k ∈ m ∨ probePresent ctx.root_dir k fs0) →
      probePresent ctx.root_dir k
        (runSync env ctx.root_dir (sortDedupKrates m) fs0).fs := by
    intro k hk hdisj
    by_cases hkm : k ∈ m
    · refine hest k ?_
      refine sortDedup_mem_of_inj ?_ k hkm
      intro a ha b hb
      exact hinj a (hmsub a ha) b (hmsub b hb)
    · have hpp0 : probePresent ctx.root_dir k fs0 := hdisj.resolve_left hkm
      refine runSync_preserves env ctx.root_dir k (sortDedupKrates m) fs0 ?_ hpp0
      intro a ha hlid2
      have ham := sortDedup_subset a ha
      exact hkm ((hinj a (hmsub a ham) k hk hlid2) ▸ ham)
  have hgit2 : get_missing_git_sources ctx.krates (ctx.root_dir ++ GIT_CO_DIR)
      (runSync env ctx.root_dir (sortDedupKrates m) fs0).fs = [] := by
    refine get_missing_git_nil _ _ _ ?_
    intro k hk url ident rev hsrc
    have hpp : probePresent ctx.root_dir k
        (runSync env ctx.root_dir (sortDedupKrates m) fs0).fs := by
      refine hcarry k hk ?_
      by_cases hkm : k ∈ m
      · exact Or.inl hkm
      · refine Or.inr ?_
        by_contra hnp
        apply hkm
        rw [hmE]
        refine List.mem_append_left _ ?_
        refine List.mem_filter.mpr ⟨hk, ?_⟩
        have hnp2 : fs0.pathExists
            (ctx.root_dir ++ GIT_CO_DIR ++ [ident, rev, ".cargo-ok"]) = false := by
          unfold probePresent at hnp
          rw [hsrc] at hnp
          dsimp only at hnp
          exact Bool.eq_false_iff.mpr hnp
        simp [hsrc]
        simpa using hnp2
    unfold probePresent at hpp
    rw [hsrc] at hpp
    dsimp only at hpp
    exact hpp
  have hreg2 : missingRegistryLoop env ctx
      (runSync env ctx.root_dir (sortDedupKrates m) fs0).fs ctx.registries = .ok [] := by
    refine missingRegistryLoop_nil env ctx _ hd ctx.registries ?_
    intro r hrmem k hk hin
    cases hsrc : k.source with
    | git u i rv =>
      rw [Krate.inRegistry] at hin
      rw [hsrc] at hin
      dsimp only at hin
      cases hin
    | registry regk chk =>
      have hregr : regk = r := by
        rw [Krate.inRegistry] at hin
        rw [hsrc] at hin
        dsimp only at hin
        exact beq_iff_eq.mp hin
      have hpp : probePresent ctx.root_dir k
          (runSync env ctx.root_dir (sortDedupKrates m) fs0).fs := by
        refine hcarry k hk ?_
        by_cases hkm : k ∈ m
        · exact Or.inl hkm
        · refine Or.inr ?_
          by_contra hnp
          apply hkm
          have hnc : (fs0.readDirNames ((r.sync_dirs ctx.root_dir).1)).contains
              k.local_id = false := by
            cases hcc : (fs0.readDirNames ((r.sync_dirs ctx.root_dir).1)).contains
                k.local_id with
            | false => rfl
            | true =>
              exfalso
              apply hnp
              unfold probePresent
              rw [hsrc]
              dsimp only
              have hch := contains_readDirNames_iff.mp hcc
              rw [hregr]
              simpa [Registry.sync_dirs] using hch
          rw [hmE]
          refine List.mem_append_right _ ?_
          exact missingRegistryLoop_mem env ctx fs0 ctx.registries lr hlr r hrmem
            k hk hin hnc
      unfold probePresent at hpp
      rw [hsrc] at hpp
      dsimp only at hpp
      rw [hregr] at hpp
      refine contains_readDirNames_iff.mpr ?_
      simpa [Registry.sync_dirs] using hpp
  have hmiss2 : missingKrates env ctx
      (runSync env ctx.root_dir (sortDedupKrates m) fs0).fs = .ok [] := by
    unfold missingKrates
    rw [hreg2]
    dsimp only
    rw [hgit2]
    rfl
  have hfs : (crates env ctx fs0).2.fs =
      (runSync env ctx.root_dir (sortDedupKrates m) fs0).fs := by rw [hcr]
  constructor
  · rw [hfs]
    exact hmiss2
  · rw [hfs]
    rw [crates_eq_of_missing env ctx _ [] hmiss2]
    rfl

/-- Witness for C2: a concrete first run materializes one registry package
and one git package; the second run finds nothing missing, fetches nothing,
and leaves the tree identical. -/
theorem crates_idempotent_witness :
    missingKrates envW ctxW (crates envW ctxW ⟨[]⟩).2.fs = .ok [] ∧
    crates envW ctxW (crates envW ctxW ⟨[]⟩).2.fs =
      (.ok ⟨0, 0, 0⟩, ⟨(crates envW ctxW ⟨[]⟩).2.fs, [], [], [], []⟩) :=
  crates_idempotent envW ctxW ⟨[]⟩ rfl rfl (by decide) (by decide)

end CargoFetcher
